import Mathlib

/-!
# Neo: harvesting Kubernetes manifests

A shallow embedding of `kubectl/kube.go` (the harvest behind `neo copy secrets`) and of the
filter loop of `main.go`.

* Go strings are Lean strings (sequences of Unicode characters; the names and manifests that
  `kubectl` prints are valid UTF-8).
* The cluster tool, the file system and the YAML library are the environment: the answers
  of `kubectl` and of the file system are fields of `Env`, a YAML text is represented by
  the document tree it denotes (`Node`), and what the library makes of a payload is a field
  of `Env` too (`YamlV3`).
* The process is a transition system (`step`): the control thread runs `Copy` and
  `createManifests`, every `go worker(o, &wg)` adds a worker thread, and a schedule decides who
  moves next.
-/

namespace Neo

/-! ## Go standard library: `unicode` and `strings` -/

/-- Go `unicode.IsSpace`: the Latin-1 spaces `\t \n \v \f \r`, space, U+0085, U+00A0, and the
characters with the Unicode property White_Space beyond Latin-1. -/
def isSpace (c : Char) : Bool :=
  c = '\t' || c = '\n' || c.toNat = 0x0B || c.toNat = 0x0C || c = '\r' || c = ' '
    || c.toNat = 0x85 || c.toNat = 0xA0 || c.toNat = 0x1680
    || (0x2000 ≤ c.toNat && c.toNat ≤ 0x200A)
    || c.toNat = 0x2028 || c.toNat = 0x2029 || c.toNat = 0x202F || c.toNat = 0x205F
    || c.toNat = 0x3000

/-- Go `strings.HasPrefix` on character lists. -/
def startsWith : List Char → List Char → Bool
  | _, [] => true
  | [], _ :: _ => false
  | c :: s, d :: p => c == d && startsWith s p

/-- Go `strings.Contains` on character lists: `substr` occurs at some offset of `s`. -/
def containsChars : List Char → List Char → Bool
  | [], substr => startsWith [] substr
  | c :: s, substr => startsWith (c :: s) substr || containsChars s substr

/-- Go `strings.Contains(s, substr)`. -/
def Contains (s substr : String) : Bool :=
  containsChars s.data substr.data

/-- Go `strings.TrimSpace(s)`: `s` without its leading and trailing white space. -/
def TrimSpace (s : String) : String :=
  ⟨((s.data.dropWhile isSpace).reverse.dropWhile isSpace).reverse⟩

/-- Go `strings.Split` on character lists, for a separator of one character: the pieces
between the occurrences of `sep`, an empty piece included. -/
def splitChars (sep : Char) : List Char → List (List Char)
  | [] => [[]]
  | c :: s =>
    if c = sep then [] :: splitChars sep s
    else
      match splitChars sep s with
      | [] => [[c]]
      | t :: ts => (c :: t) :: ts

/-- Go `strings.Split(s, sep)` for a separator of one character (the source splits on
`"\n"`). -/
def Split (s : String) (sep : Char) : List String :=
  (splitChars sep s.data).map String.mk

/-! ## The exclusion filter -/

namespace Kube

/-- The `switch` of the loop of `createManifests` (kube.go, lines 186-201): `true` on the
cases that `continue`, `false` on the `default` case that launches a worker. -/
def createManifests_skips (o : String) : Bool :=
  if Contains o "default" then true
  else if Contains o "registry" then true
  else if Contains o "pod-autoscaler-token" then true
  else if TrimSpace o = "" then true
  else false

end Kube

namespace MainPkg

/-- The `switch` of the loop of `readSecretsFromNamespace` (main.go, lines 197-212): `true`
on the cases that `continue`, `false` on the `default` case that launches a worker. -/
def readSecretsFromNamespace_skips (s : String) : Bool :=
  if Contains s "default" then true
  else if Contains s "registry" then true
  else if Contains s "pod-autoscaler-token" then true
  else if TrimSpace s = "" then true
  else false

end MainPkg

/-! ## YAML documents and the manifest structure

The library `gopkg.in/yaml.v3` (imported in kube.go, line 14) is no part of the repository.
Its text format is left out: a YAML text stands for the document tree it denotes. What the
library does with the struct `secretYaml` is written out on such trees: `Unmarshal` walks the
mapping and fills the fields whose `yaml` tag is the key, `Marshal` emits one entry per field.
The payload under `data` goes into an `interface{}`: the library resolves its scalars to Go
values, refuses a repeated key, and on the way out prints the values anew and sorts the keys.
None of that is written out here: what the library makes of a payload, and what it emits for
one, are the fields `decodeAny` and `encodeAny` of `YamlV3`, about which nothing is assumed.
-/

/-- A YAML document tree as `yaml.v3` composes it (anchors and merge keys resolved): the
null scalar (a plain `null`, `~` or nothing), any other scalar kept by its text and by
whether it is written in quotes (a plain `0x10` is a number to the library, a quoted one a
string), a sequence, or a mapping whose keys are strings kept by their text, in document
order. These are the documents `kubectl` prints for the objects of the API: their keys are
strings and they carry no explicit tag. -/
inductive Node where
  | null : Node
  | scalar (text : String) (quoted : Bool) : Node
  | sequence (items : List Node) : Node
  | mapping (entries : List (String × Node)) : Node

/-- The output of `kubectl get <name> -o yaml` as `yaml.Unmarshal` receives it: a text that
is not YAML, or the document that the text denotes. -/
inductive RawManifest where
  | malformed : RawManifest
  | document (root : Node) : RawManifest

/-- A Go value as `yaml.v3` leaves it in an `interface{}`; a float and a time are kept by
the text Go prints for them, a map by its entries in the order the encoder writes them. -/
inductive Value where
  | nil : Value
  | bool (b : Bool) : Value
  | int (n : Int) : Value
  | float (text : String) : Value
  | string (s : String) : Value
  | time (text : String) : Value
  | sequence (items : List Value) : Value
  | mapping (entries : List (Value × Value)) : Value

/-- What `yaml.v3` does beyond the struct: taken as given, whatever it is. -/
structure YamlV3 where
  /-- Decoding a node into an `interface{}`: the Go value, or `none` when the library
  reports an error (a repeated key, a scalar it cannot resolve). -/
  decodeAny : Node → Option Value
  /-- The node the encoder emits for the Go value an `interface{}` holds. -/
  encodeAny : Value → Node
  /-- Whether the encoder writes a Go string in quotes (it does where the plain text would
  be read as something else). -/
  quotes : String → Bool

namespace Kube

/-- The struct `parameters` (kube.go, lines 120-122). -/
structure parameters where
  Name : String

/-- The struct `secretYaml` (kube.go, lines 111-117); `Data` is an `interface{}`. -/
structure secretYaml where
  APIVersion : String
  Data : Value
  Kind : String
  Metadata : parameters
  TypeSecret : String

/-- The value of `secretYaml{}`. -/
def secretYaml.zero : secretYaml :=
  ⟨"", Value.nil, "", ⟨""⟩, ""⟩

end Kube

/-- What `yaml.v3` does to a Go string field given a node: a null leaves the field as it
is, a scalar stores its text, a sequence or a mapping is a type error (`none`). -/
def decodeString (n : Node) (old : String) : Option String :=
  match n with
  | Node.null => some old
  | Node.scalar text _ => some text
  | Node.sequence _ => none
  | Node.mapping _ => none

/-- The loop of `yaml.v3` over the entries of a mapping decoded into a struct whose
`yaml:"..."` tags are `isField`. A key that is no field is passed over; a field met a second
time is an error (`uniqueKeys`), as is a value that does not fit the field; after an error
the loop goes on. The state is the struct so far, the fields already met, and whether an
error was recorded. -/
def mappingStruct {σ : Type} (isField : String → Bool) (setField : String → Node → σ → Option σ) :
    List (String × Node) → σ × List String × Bool → σ × List String × Bool
  | [], st => st
  | (key, value) :: rest, (s, doneFields, failed) =>
    if isField key then
      if doneFields.contains key then
        mappingStruct isField setField rest (s, doneFields, true)
      else
        match setField key value s with
        | some s1 => mappingStruct isField setField rest (s1, key :: doneFields, failed)
        | none => mappingStruct isField setField rest (s, key :: doneFields, true)
    else mappingStruct isField setField rest (s, doneFields, failed)

/-- The check of `yaml.v3` on a mapping before it is decoded: some key stands twice. -/
def repeatedKey : List String → Bool
  | [] => false
  | key :: keys => keys.contains key || repeatedKey keys

/-- Decoding a node into a struct value with `yaml.v3`: a null leaves the value as it is, a
mapping with a repeated key is an error, any other mapping runs `mappingStruct`, a scalar
or a sequence is a type error. The result is the value and whether an error was recorded. -/
def decodeStruct {σ : Type} (isField : String → Bool) (setField : String → Node → σ → Option σ)
    (n : Node) (old : σ) : σ × Bool :=
  match n with
  | Node.null => (old, false)
  | Node.mapping entries =>
    if repeatedKey (entries.map Prod.fst) then (old, true)
    else
      let r := mappingStruct isField setField entries (old, [], false)
      (r.1, r.2.2)
  | Node.scalar _ _ => (old, true)
  | Node.sequence _ => (old, true)

namespace Kube

/-- The `yaml` tags of `parameters`. -/
def parameters.isField (key : String) : Bool :=
  key = "name"

/-- Storing a node into the field of `parameters` with tag `key`. -/
def parameters.setField (key : String) (value : Node) (p : parameters) : Option parameters :=
  if key = "name" then (decodeString value p.Name).map parameters.mk else some p

/-- The `yaml` tags of `secretYaml`. -/
def secretYaml.isField (key : String) : Bool :=
  key = "apiVersion" || key = "data" || key = "kind" || key = "metadata" || key = "type"

/-- Storing a node into the field of `secretYaml` with tag `key`; the node under `data` is
decoded into the `interface{}` by the library, whose error is an error here. -/
def secretYaml.setField (y : YamlV3) (key : String) (value : Node) (s : secretYaml) :
    Option secretYaml :=
  if key = "apiVersion" then
    (decodeString value s.APIVersion).map fun v => { s with APIVersion := v }
  else if key = "data" then (y.decodeAny value).map fun d => { s with Data := d }
  else if key = "kind" then
    (decodeString value s.Kind).map fun v => { s with Kind := v }
  else if key = "metadata" then
    match decodeStruct parameters.isField parameters.setField value s.Metadata with
    | (p, false) => some { s with Metadata := p }
    | (_, true) => none
  else if key = "type" then
    (decodeString value s.TypeSecret).map fun v => { s with TypeSecret := v }
  else some s

/-- The call `yaml.Unmarshal(secret.Bytes(), &s)` with `s := secretYaml{}` (kube.go, lines
234-236): `none` when it returns an error. -/
def Unmarshal (y : YamlV3) (raw : RawManifest) : Option secretYaml :=
  match raw with
  | RawManifest.malformed => none
  | RawManifest.document root =>
    match decodeStruct secretYaml.isField (secretYaml.setField y) root secretYaml.zero with
    | (s, false) => some s
    | (_, true) => none

/-- The call `yaml.Marshal(s)` (kube.go, line 241): the fields in the order of the struct,
each under its tag, none left out (no tag says `omitempty`); a string field is a scalar with
the string as its text, the payload is what the library emits for the value in `Data`. For a
struct of strings and an `interface{}` read from YAML the call returns no error, so the
`log.Fatalln` of line 243 is never reached. -/
def Marshal (y : YamlV3) (s : secretYaml) : Node :=
  Node.mapping
    [("apiVersion", Node.scalar s.APIVersion (y.quotes s.APIVersion)),
     ("data", y.encodeAny s.Data),
     ("kind", Node.scalar s.Kind (y.quotes s.Kind)),
     ("metadata", Node.mapping [("name", Node.scalar s.Metadata.Name (y.quotes s.Metadata.Name))]),
     ("type", Node.scalar s.TypeSecret (y.quotes s.TypeSecret))]

end Kube

/-- The value under `key` in a mapping node (the first one), `none` when the node is no
mapping or has no such key. -/
def Node.get? (n : Node) (key : String) : Option Node :=
  match n with
  | Node.mapping entries => (entries.find? fun e => e.1 = key).map Prod.snd
  | _ => none

/-- The keys of a mapping node, in document order. -/
def Node.keys (n : Node) : List String :=
  match n with
  | Node.mapping entries => entries.map Prod.fst
  | _ => []

/-- The value at a path of keys below a node. -/
def Node.at? (n : Node) : List String → Option Node
  | [] => some n
  | key :: path => (n.get? key).bind fun m => m.at? path

/-- The text a string field of the manifest receives from the node found (or not found)
under its key: the text of a scalar, and the zero value `""` otherwise. -/
def fieldText (n : Option Node) : String :=
  match n with
  | some (Node.scalar text _) => text
  | _ => ""

/-- The value the `interface{}` field of the manifest receives from the node found (or not
found) under its key: Go `nil` when there is none, and otherwise what the library decodes
the node to (`none` when it reports an error). -/
def fieldValue (y : YamlV3) (n : Option Node) : Option Value :=
  match n with
  | none => some Value.nil
  | some v => y.decodeAny v

/-- The value at a path of keys below the root of a raw manifest. -/
def RawManifest.at? (raw : RawManifest) (path : List String) : Option Node :=
  match raw with
  | RawManifest.malformed => none
  | RawManifest.document root => root.at? path

/-- The five places of a raw manifest that the struct `secretYaml` has a field for. -/
def retainedPaths : List (List String) :=
  [["apiVersion"], ["data"], ["kind"], ["metadata", "name"], ["type"]]

/-! ## Example inputs -/

/-- The payload of the secret `db-creds` as a document and as the Go value read from it. -/
def passwordNode : Node :=
  Node.mapping [("password", Node.scalar "aHVudGVyMg==" false)]

/-- The Go value of `passwordNode`: a map with one string under a string. -/
def passwordValue : Value :=
  Value.mapping [(Value.string "password", Value.string "aHVudGVyMg==")]

/-- The payload of the config map of the examples. -/
def logLevelNode : Node :=
  Node.mapping [("log-level", Node.scalar "debug" false)]

/-- The Go value of `logLevelNode`. -/
def logLevelValue : Value :=
  Value.mapping [(Value.string "log-level", Value.string "debug")]

/-- A payload with the plain scalar `1e3`, which the library reads as a float. -/
def floatNode : Node :=
  Node.mapping [("replicas", Node.scalar "1e3" false)]

/-- The Go value of `floatNode`: the float64 that Go prints as `1000`. -/
def floatValue : Value :=
  Value.mapping [(Value.string "replicas", Value.float "1000")]

/-- What the encoder emits for `floatValue`: the plain scalar `1000`. -/
def floatNodeWritten : Node :=
  Node.mapping [("replicas", Node.scalar "1000" false)]

/-- The Go value the library reads from `floatNodeWritten`: the integer 1000. -/
def intValue : Value :=
  Value.mapping [(Value.string "replicas", Value.int 1000)]

/-- The answers of `yaml.v3` on the payloads and strings of the examples (what it answers
elsewhere plays no part): the two maps of strings are read as such and written back as they
were; the plain `1e3` is read as a float, which is written as the plain `1000`, which is read
as an integer; of the strings of the examples the empty one alone is written in quotes. -/
def exampleYaml : YamlV3 where
  decodeAny := fun n =>
    match n with
    | Node.null => some Value.nil
    | Node.mapping [("password", Node.scalar "aHVudGVyMg==" false)] => some passwordValue
    | Node.mapping [("log-level", Node.scalar "debug" false)] => some logLevelValue
    | Node.mapping [("replicas", Node.scalar "1e3" false)] => some floatValue
    | Node.mapping [("replicas", Node.scalar "1000" false)] => some intValue
    | _ => none
  encodeAny := fun v =>
    match v with
    | Value.mapping [(Value.string "password", Value.string "aHVudGVyMg==")] => passwordNode
    | Value.mapping [(Value.string "log-level", Value.string "debug")] => logLevelNode
    | Value.mapping [(Value.string "replicas", Value.float "1000")] => floatNodeWritten
    | Value.mapping [(Value.string "replicas", Value.int 1000)] => floatNodeWritten
    | _ => Node.null
  quotes := fun s => s = ""

/-- A raw manifest of a secret named `db-creds`, with fields the cluster added. -/
def dbCredsRaw : RawManifest :=
  RawManifest.document (Node.mapping
    [("apiVersion", Node.scalar "v1" false),
     ("data", passwordNode),
     ("kind", Node.scalar "Secret" false),
     ("metadata", Node.mapping
        [("creationTimestamp", Node.scalar "2020-05-01T10:00:00Z" true),
         ("name", Node.scalar "db-creds" false),
         ("namespace", Node.scalar "lion" false),
         ("resourceVersion", Node.scalar "4711" true),
         ("uid", Node.scalar "0d9c6e0a-5d7b-4a6e-9c1d-3c2b1a0f9e8d" false)]),
     ("type", Node.scalar "Opaque" false)])

/-- The same secret as another cluster would print it: other fields around the five. -/
def dbCredsRawElsewhere : RawManifest :=
  RawManifest.document (Node.mapping
    [("kind", Node.scalar "Secret" false),
     ("type", Node.scalar "Opaque" false),
     ("status", Node.mapping []),
     ("metadata", Node.mapping
        [("namespace", Node.scalar "tiger" false),
         ("labels", Node.mapping [("app", Node.scalar "db" false)]),
         ("name", Node.scalar "db-creds" false)]),
     ("apiVersion", Node.scalar "v1" false),
     ("data", passwordNode)])

/-- What `createSecretYAML` keeps of `dbCredsRaw`. -/
def dbCredsSanitized : Kube.secretYaml :=
  ⟨"v1", passwordValue, "Secret", ⟨"db-creds"⟩, "Opaque"⟩

/-- A raw manifest of a config map (it has no `type`). -/
def configMapRaw : RawManifest :=
  RawManifest.document (Node.mapping
    [("apiVersion", Node.scalar "v1" false),
     ("data", logLevelNode),
     ("kind", Node.scalar "ConfigMap" false),
     ("metadata", Node.mapping
        [("name", Node.scalar "app-secret-settings" false),
         ("namespace", Node.scalar "lion" false),
         ("resourceVersion", Node.scalar "4712" true)])])

/-- What `createSecretYAML` keeps of `configMapRaw`. -/
def configMapSanitized : Kube.secretYaml :=
  ⟨"v1", logLevelValue, "ConfigMap", ⟨"app-secret-settings"⟩, ""⟩

/-- A raw manifest of a config map whose payload holds the plain scalar `1e3`. -/
def floatRaw : RawManifest :=
  RawManifest.document (Node.mapping
    [("apiVersion", Node.scalar "v1" false),
     ("data", floatNode),
     ("kind", Node.scalar "ConfigMap" false),
     ("metadata", Node.mapping [("name", Node.scalar "scale-secret" false)])])

/-- What `createSecretYAML` keeps of `floatRaw`: the payload holds a float. -/
def floatSanitized : Kube.secretYaml :=
  ⟨"v1", floatValue, "ConfigMap", ⟨"scale-secret"⟩, ""⟩

/-- What is read back from the serialised `floatSanitized`: the payload holds an integer. -/
def floatSanitizedAgain : Kube.secretYaml :=
  ⟨"v1", intValue, "ConfigMap", ⟨"scale-secret"⟩, ""⟩

/-! ## The environment -/

/-- A Go `error` value, by its message. -/
abbrev Err := String

/-- The answers of the collaborators of one run: the cluster tool, the file system and the
YAML library. -/
structure Env where
  /-- The value of `os.Getenv("HOME")`. -/
  HOME : String
  /-- The working directory the process starts in. -/
  workingDir : String
  /-- The error of `kubectl config set-context --current --namespace <namespace>`. -/
  setContext : String → Option Err
  /-- The standard output and the error of `kubectl get <object> -o name`. -/
  getNames : String → String × Option Err
  /-- The standard output and the error of `kubectl get <name> -o yaml`. -/
  getYaml : String → RawManifest × Option Err
  /-- The error of `os.Chdir(dir)` (after `os.Mkdir(dir, 0744)`). -/
  chdir : String → Option Err
  /-- The error of `ioutil.WriteFile(name, y, 0644)` in working directory `dir`. -/
  writeFile : String → String → Node → Option Err
  /-- The library `yaml.v3` the process is linked with. -/
  yaml : YamlV3

/-- The ways the process ends by `log.Fatal...` (or by a panic of the wait group). -/
inductive Fatal where
  /-- The `log.Fatalln(err)` of `Copy` after `switchToNamespace` (kube.go, line 47). -/
  | switchToNamespace (err : Err) : Fatal
  /-- The `log.Fatalf` of `readObjects` (kube.go, line 169). -/
  | noObjects (object : String) : Fatal
  /-- The `log.Fatalln(err)` of `Copy` after `createManifests` (kube.go, line 56). -/
  | createManifests (err : Err) : Fatal
  /-- The `log.Fatalln(err)` of `worker` (kube.go, line 221). -/
  | worker (err : Err) : Fatal
  /-- The `log.Fatalln(err)` of `createSecretYAML` after `yaml.Unmarshal` (line 238). -/
  | unmarshal : Fatal
  /-- The panic of `sync.WaitGroup` when `Done` meets a counter of zero. -/
  | negativeCounter : Fatal
  deriving DecidableEq, Repr

/-- One call of `ioutil.WriteFile`: the working directory at the time, the file name and the
document passed, and the error the call returned. -/
structure Write where
  dir : String
  name : String
  content : Node
  err : Option Err

namespace Kube

/-- The type `Kind` (kube.go, line 18), a Go `int`. -/
abbrev Kind := Int

/-- The constant `Secret`. -/
def Secret : Kind := 0

/-- The constant `ConfigMap`. -/
def ConfigMap : Kind := 1

/-- The constant `Deployment`. -/
def Deployment : Kind := 2

/-- The three implementations of the interface `Kubectl` (kube.go, lines 33-43). -/
inductive Kubectl where
  | secret (name : String) : Kubectl
  | configmap (name : String) : Kubectl
  | deployment (name : String) : Kubectl
  deriving DecidableEq, Repr

/-- The field `name` of the object. -/
def Kubectl.name : Kubectl → String
  | Kubectl.secret name => name
  | Kubectl.configmap name => name
  | Kubectl.deployment name => name

/-- The function `Factory` (kube.go, lines 130-147); `none` is Go `nil`. -/
def Factory (object : Kind) : Option Kubectl :=
  if object = 0 then some (Kubectl.secret "secrets")
  else if object = 1 then some (Kubectl.configmap "configmaps")
  else if object = 2 then some (Kubectl.deployment "deployments")
  else none

/-- The variable `homePath` as `init` sets it (kube.go, line 126). -/
def homePath (env : Env) : String :=
  env.HOME ++ "/"

/-- The function `switchToNamespace` (kube.go, lines 149-156). -/
def switchToNamespace (env : Env) (namespace_ : String) : Option Err :=
  env.setContext namespace_

/-- The function `readObjects` (kube.go, lines 158-175): the list of names and the error of
the listing call, or the fatal end of the process. -/
def readObjects (env : Env) (object : String) : Except Fatal (List String × Option Err) :=
  let err := (env.getNames object).2
  let kubeOutput := TrimSpace (env.getNames object).1
  if kubeOutput = "" then Except.error (Fatal.noObjects object)
  else Except.ok (Split kubeOutput '\n', err)

/-- The function `createSecretYAML` (kube.go, lines 233-247) called in working directory
`cwd`: the call of `ioutil.WriteFile` it makes, whose error it drops, or the fatal end of the
process. -/
def createSecretYAML (env : Env) (cwd : String) (secret : RawManifest) : Except Fatal Write :=
  match Unmarshal env.yaml secret with
  | none => Except.error Fatal.unmarshal
  | some s =>
    let y := Marshal env.yaml s
    Except.ok ⟨cwd, s.Metadata.Name ++ "-secret.yaml", y,
      env.writeFile cwd (s.Metadata.Name ++ "-secret.yaml") y⟩

/-- The directory `dir` of `Copy` (kube.go, lines 50, 71, 92). -/
def Copy_dir (env : Env) (k : Kubectl) (namespace_ : String) : String :=
  homePath env ++ namespace_ ++ "-" ++ k.name

/-! ## The process -/

/-- Where a worker thread stands. -/
inductive WorkerPc where
  /-- Launched by `go worker(o, &wg)`, before `cmd.Run()` (kube.go, lines 212-220). -/
  | launched : WorkerPc
  /-- After `cmd.Run()` returned `nil`, with the output read (line 224). -/
  | fetched (out : RawManifest) : WorkerPc
  /-- The function returned and the deferred `wg.Done()` ran. -/
  | returned : WorkerPc

/-- Whether the worker has returned. -/
def WorkerPc.isReturned : WorkerPc → Bool
  | WorkerPc.returned => true
  | _ => false

/-- A worker thread: the name it was launched with and where it stands. -/
structure Worker where
  name : String
  pc : WorkerPc

/-- Where the control thread stands. -/
inductive Pc where
  /-- At the start of `Copy` (kube.go, line 45). -/
  | start : Pc
  /-- At the start of `createManifests` (line 179). -/
  | readObjects : Pc
  /-- At the head of the loop, with the names still to visit and the listing error. -/
  | loop (objects : List String) (err : Option Err) : Pc
  /-- At `wg.Wait()` (line 204). -/
  | wait (err : Option Err) : Pc
  /-- After `createManifests` returned `err` to `Copy` (line 55). -/
  | returned (err : Option Err) : Pc
  /-- After `Copy` printed the directory (lines 62-63). -/
  | done : Pc
  deriving DecidableEq, Repr

/-- The state of the process. -/
structure State where
  pc : Pc
  /-- The working directory. -/
  cwd : String
  /-- The counter of the wait group `wg`. -/
  wg : Nat
  /-- The workers launched so far, in launch order. -/
  workers : List Worker
  /-- The calls of `ioutil.WriteFile` made so far. -/
  writes : List Write
  /-- How the process ended, once `log.Fatal...` has run. -/
  exit : Option Fatal
  /-- The directory that `Copy` printed as the place of the manifests. -/
  reported : Option String

/-- The state in which `Copy` is entered. -/
def State.init (env : Env) : State :=
  ⟨Pc.start, env.workingDir, 0, [], [], none, none⟩

/-- A thread of the process. -/
inductive Tid where
  | main : Tid
  | worker (i : Nat) : Tid
  deriving DecidableEq, Repr

/-- The return of worker `i`: the deferred `wg.Done()` (kube.go, line 213). -/
def workerReturn (s : State) (i : Nat) (w : Worker) : State :=
  if s.wg = 0 then { s with exit := some Fatal.negativeCounter }
  else { s with wg := s.wg - 1, workers := s.workers.set i ⟨w.name, WorkerPc.returned⟩ }

/-- One move of worker `i` (kube.go, lines 212-230); `none` when it has returned. -/
def stepWorker (env : Env) (s : State) (i : Nat) (w : Worker) : Option State :=
  match w.pc with
  | WorkerPc.launched =>
    match (env.getYaml w.name).2 with
    | some err => some { s with exit := some (Fatal.worker err) }
    | none =>
      some { s with workers := s.workers.set i ⟨w.name, WorkerPc.fetched (env.getYaml w.name).1⟩ }
  | WorkerPc.fetched out =>
    if Contains w.name "secret" then
      match createSecretYAML env s.cwd out with
      | Except.error f => some { s with exit := some f }
      | Except.ok wr => some (workerReturn { s with writes := s.writes ++ [wr] } i w)
    else some (workerReturn s i w)
  | WorkerPc.returned => none

/-- One move of the control thread through `Copy` (kube.go, lines 45-64) and
`createManifests` (lines 177-207); `none` when it is blocked in `wg.Wait()` or has finished. -/
def stepMain (env : Env) (k : Kubectl) (namespace_ : String) (s : State) : Option State :=
  match s.pc with
  | Pc.start =>
    match switchToNamespace env namespace_ with
    | some err => some { s with exit := some (Fatal.switchToNamespace err) }
    | none =>
      let dir := Copy_dir env k namespace_
      some { s with pc := Pc.readObjects,
                    cwd := if env.chdir dir = none then dir else s.cwd }
  | Pc.readObjects =>
    match readObjects env k.name with
    | Except.error f => some { s with exit := some f }
    | Except.ok (objects, err) => some { s with pc := Pc.loop objects err }
  | Pc.loop [] err => some { s with pc := Pc.wait err }
  | Pc.loop (o :: objects) err =>
    if createManifests_skips o then some { s with pc := Pc.loop objects err }
    else
      some { s with pc := Pc.loop objects err, wg := s.wg + 1,
                    workers := s.workers ++ [⟨o, WorkerPc.launched⟩] }
  | Pc.wait err => if s.wg = 0 then some { s with pc := Pc.returned err } else none
  | Pc.returned (some err) => some { s with exit := some (Fatal.createManifests err) }
  | Pc.returned none =>
    some { s with pc := Pc.done, reported := some (Copy_dir env k namespace_) }
  | Pc.done => none

/-- One move of thread `t`; `none` when the process has ended or the thread cannot move. -/
def step (env : Env) (k : Kubectl) (namespace_ : String) (s : State) (t : Tid) : Option State :=
  if s.exit.isSome then none
  else
    match t with
    | Tid.main => stepMain env k namespace_ s
    | Tid.worker i =>
      match s.workers.get? i with
      | none => none
      | some w => stepWorker env s i w

/-- The state after thread `t` was scheduled: its move if it has one. -/
def next (env : Env) (k : Kubectl) (namespace_ : String) (s : State) (t : Tid) : State :=
  (step env k namespace_ s t).getD s

/-- The state of `k.Copy(namespace)` after the schedule `sched`. -/
def run (env : Env) (k : Kubectl) (namespace_ : String) (sched : List Tid) : State :=
  sched.foldl (next env k namespace_) (State.init env)

/-- The moves of the process, one rule for each way through `step`: the first ten are the
control thread's, the others those of worker `i`. -/
inductive Step (env : Env) (k : Kubectl) (namespace_ : String) : State → State → Prop where
  | switchFailed (s : State) (err : Err) :
      s.exit = none → s.pc = Pc.start → switchToNamespace env namespace_ = some err →
      Step env k namespace_ s { s with exit := some (Fatal.switchToNamespace err) }
  | switched (s : State) :
      s.exit = none → s.pc = Pc.start → switchToNamespace env namespace_ = none →
      Step env k namespace_ s
        { s with pc := Pc.readObjects,
                 cwd := if env.chdir (Copy_dir env k namespace_) = none
                        then Copy_dir env k namespace_ else s.cwd }
  | listFailed (s : State) (f : Fatal) :
      s.exit = none → s.pc = Pc.readObjects → readObjects env k.name = Except.error f →
      Step env k namespace_ s { s with exit := some f }
  | listed (s : State) (objects : List String) (err : Option Err) :
      s.exit = none → s.pc = Pc.readObjects →
      readObjects env k.name = Except.ok (objects, err) →
      Step env k namespace_ s { s with pc := Pc.loop objects err }
  | loopEnd (s : State) (err : Option Err) :
      s.exit = none → s.pc = Pc.loop [] err →
      Step env k namespace_ s { s with pc := Pc.wait err }
  | skipped (s : State) (o : String) (objects : List String) (err : Option Err) :
      s.exit = none → s.pc = Pc.loop (o :: objects) err → createManifests_skips o = true →
      Step env k namespace_ s { s with pc := Pc.loop objects err }
  | launched (s : State) (o : String) (objects : List String) (err : Option Err) :
      s.exit = none → s.pc = Pc.loop (o :: objects) err → createManifests_skips o = false →
      Step env k namespace_ s
        { s with pc := Pc.loop objects err, wg := s.wg + 1,
                 workers := s.workers ++ [⟨o, WorkerPc.launched⟩] }
  | waited (s : State) (err : Option Err) :
      s.exit = none → s.pc = Pc.wait err → s.wg = 0 →
      Step env k namespace_ s { s with pc := Pc.returned err }
  | copyFailed (s : State) (err : Err) :
      s.exit = none → s.pc = Pc.returned (some err) →
      Step env k namespace_ s { s with exit := some (Fatal.createManifests err) }
  | copyDone (s : State) :
      s.exit = none → s.pc = Pc.returned none →
      Step env k namespace_ s
        { s with pc := Pc.done, reported := some (Copy_dir env k namespace_) }
  | fetchFailed (s : State) (i : Nat) (w : Worker) (err : Err) :
      s.exit = none → s.workers.get? i = some w → w.pc = WorkerPc.launched →
      (env.getYaml w.name).2 = some err →
      Step env k namespace_ s { s with exit := some (Fatal.worker err) }
  | fetched (s : State) (i : Nat) (w : Worker) :
      s.exit = none → s.workers.get? i = some w → w.pc = WorkerPc.launched →
      (env.getYaml w.name).2 = none →
      Step env k namespace_ s
        { s with workers := s.workers.set i ⟨w.name, WorkerPc.fetched (env.getYaml w.name).1⟩ }
  | parseFailed (s : State) (i : Nat) (w : Worker) (out : RawManifest) :
      s.exit = none → s.workers.get? i = some w → w.pc = WorkerPc.fetched out →
      Contains w.name "secret" = true → Unmarshal env.yaml out = none →
      Step env k namespace_ s { s with exit := some Fatal.unmarshal }
  | wrote (s : State) (i : Nat) (w : Worker) (out : RawManifest) (m : secretYaml) :
      s.exit = none → s.workers.get? i = some w → w.pc = WorkerPc.fetched out →
      Contains w.name "secret" = true → Unmarshal env.yaml out = some m → s.wg ≠ 0 →
      Step env k namespace_ s
        { s with writes := s.writes ++ [⟨s.cwd, m.Metadata.Name ++ "-secret.yaml",
                   Marshal env.yaml m,
                   env.writeFile s.cwd (m.Metadata.Name ++ "-secret.yaml")
                     (Marshal env.yaml m)⟩],
                 wg := s.wg - 1,
                 workers := s.workers.set i ⟨w.name, WorkerPc.returned⟩ }
  | wrotePanicked (s : State) (i : Nat) (w : Worker) (out : RawManifest) (m : secretYaml) :
      s.exit = none → s.workers.get? i = some w → w.pc = WorkerPc.fetched out →
      Contains w.name "secret" = true → Unmarshal env.yaml out = some m → s.wg = 0 →
      Step env k namespace_ s
        { s with writes := s.writes ++ [⟨s.cwd, m.Metadata.Name ++ "-secret.yaml",
                   Marshal env.yaml m,
                   env.writeFile s.cwd (m.Metadata.Name ++ "-secret.yaml")
                     (Marshal env.yaml m)⟩],
                 exit := some Fatal.negativeCounter }
  | passed (s : State) (i : Nat) (w : Worker) (out : RawManifest) :
      s.exit = none → s.workers.get? i = some w → w.pc = WorkerPc.fetched out →
      Contains w.name "secret" = false → s.wg ≠ 0 →
      Step env k namespace_ s
        { s with wg := s.wg - 1, workers := s.workers.set i ⟨w.name, WorkerPc.returned⟩ }
  | passedPanicked (s : State) (i : Nat) (w : Worker) (out : RawManifest) :
      s.exit = none → s.workers.get? i = some w → w.pc = WorkerPc.fetched out →
      Contains w.name "secret" = false → s.wg = 0 →
      Step env k namespace_ s { s with exit := some Fatal.negativeCounter }

/-- Whether the worker is still running: launched and not yet returned. -/
def Worker.running (w : Worker) : Bool :=
  !w.pc.isReturned

/-- The names of a listing that the loop of `createManifests` does not pass over. -/
def survivors (objects : List String) : List String :=
  objects.filter fun o => !createManifests_skips o

/-- Whether the control thread has left the loop of `createManifests`. -/
def Pc.pastLoop : Pc → Bool
  | Pc.wait _ => true
  | Pc.returned _ => true
  | Pc.done => true
  | _ => false

/-- The working directory after `os.Mkdir(dir, 0744); os.Chdir(dir)` (kube.go, lines 52-53),
whose errors `Copy` does not look at. -/
def workDir (env : Env) (k : Kubectl) (namespace_ : String) : String :=
  if env.chdir (Copy_dir env k namespace_) = none then Copy_dir env k namespace_
  else env.workingDir

/-- The names the loop of `createManifests` has still to visit: none before the listing, and
the empty list once the loop is left. -/
def Pc.pending : Pc → Option (List String)
  | Pc.start => none
  | Pc.readObjects => none
  | Pc.loop objects _ => some objects
  | Pc.wait _ => some []
  | Pc.returned _ => some []
  | Pc.done => some []

/-- The variable `err` of `createManifests`: the error of the listing call (`nil` where `Copy`
has found it to be `nil`). -/
def Pc.listErr : Pc → Option Err
  | Pc.loop _ err => err
  | Pc.wait err => err
  | Pc.returned err => err
  | _ => none

/-- The call of `ioutil.WriteFile` that `createSecretYAML` makes for the manifest `m` in
working directory `dir` (kube.go, line 246). -/
def writeOf (env : Env) (dir : String) (m : secretYaml) : Write :=
  ⟨dir, m.Metadata.Name ++ "-secret.yaml", Marshal env.yaml m,
    env.writeFile dir (m.Metadata.Name ++ "-secret.yaml") (Marshal env.yaml m)⟩

/-- The state with the errors that `WriteFile` returned left out. -/
def State.forgetWriteErrors (s : State) : State :=
  { s with writes := s.writes.map fun w => { w with err := none } }

/-- The names the workers were launched with, in launch order. -/
def State.launched (s : State) : List String :=
  s.workers.map Worker.name

end Kube

/-! ## Example runs -/

/-- The listing of the scenario: three secrets, two of them to be passed over. -/
def scenarioEnv : Env where
  HOME := "/home/neo"
  workingDir := "/work"
  setContext := fun _ => none
  getNames := fun _ =>
    ("secret/default-token-abc\nsecret/db-creds\nsecret/registry-pull\n", none)
  getYaml := fun _ => (dbCredsRaw, none)
  chdir := fun _ => none
  writeFile := fun _ _ _ => none
  yaml := exampleYaml

/-- A schedule that takes the scenario to its end: the control thread switches the
namespace, lists, visits the three names and reaches `wg.Wait()`; the worker fetches and
writes; the control thread passes the wait and reports. -/
def scenarioSchedule : List Kube.Tid :=
  [Kube.Tid.main, Kube.Tid.main, Kube.Tid.main, Kube.Tid.main, Kube.Tid.main, Kube.Tid.main, Kube.Tid.worker 0, Kube.Tid.worker 0,
   Kube.Tid.main, Kube.Tid.main]

/-- A cluster tool that prints nothing for the listing. -/
def emptyListingEnv : Env :=
  { scenarioEnv with getNames := fun _ => (" \n", none) }

/-- The scenario with a listing call that prints the names and yet fails. -/
def listingErrorEnv : Env :=
  { scenarioEnv with
    getNames := fun _ =>
      ("secret/default-token-abc\nsecret/db-creds\nsecret/registry-pull\n",
        some "exit status 1") }

/-- The scenario on a file system that refuses every write. -/
def failingWriteEnv : Env :=
  { scenarioEnv with
    writeFile := fun _ _ _ => some "open db-creds-secret.yaml: permission denied" }

/-- The scenario on a file system where the output directory cannot be entered. -/
def chdirFailsEnv : Env :=
  { scenarioEnv with
    chdir := fun _ => some "chdir /home/neo/lion-secrets: no such file or directory" }

/-! ## Facts about the string functions -/

theorem startsWith_iff (s p : List Char) :
    startsWith s p = true ↔ ∃ post, s = p ++ post := by
  induction p generalizing s with
  | nil => simp [startsWith]
  | cons d p ih =>
    cases s with
    | nil => simp [startsWith]
    | cons c s =>
      simp only [startsWith, Bool.and_eq_true, beq_iff_eq, ih, List.cons_append,
        List.cons.injEq]
      constructor
      · rintro ⟨h, post, rfl⟩
        exact ⟨post, h, rfl⟩
      · rintro ⟨post, h, rfl⟩
        exact ⟨h, post, rfl⟩

theorem containsChars_iff (s t : List Char) :
    containsChars s t = true ↔ ∃ pre post, s = pre ++ t ++ post := by
  induction s with
  | nil =>
    simp only [containsChars, startsWith_iff]
    constructor
    · rintro ⟨post, h⟩
      exact ⟨[], post, by simpa using h⟩
    · rintro ⟨pre, post, h⟩
      have h1 : pre ++ t ++ post = [] := h.symm
      simp only [List.append_eq_nil] at h1
      exact ⟨[], by simp [h1.1.2]⟩
  | cons c s ih =>
    simp only [containsChars, Bool.or_eq_true, startsWith_iff, ih]
    constructor
    · rintro (⟨post, h⟩ | ⟨pre, post, h⟩)
      · exact ⟨[], post, by simpa using h⟩
      · exact ⟨c :: pre, post, by simp [h]⟩
    · rintro ⟨pre, post, h⟩
      cases pre with
      | nil => exact Or.inl ⟨post, by simpa using h⟩
      | cons d pre =>
        simp only [List.cons_append, List.cons.injEq] at h
        exact Or.inr ⟨pre, post, h.2⟩

theorem Contains_iff (s t : String) :
    Contains s t = true ↔ ∃ pre post : String, s = pre ++ t ++ post := by
  unfold Contains
  rw [containsChars_iff]
  constructor
  · rintro ⟨pre, post, h⟩
    exact ⟨⟨pre⟩, ⟨post⟩, String.ext (by simpa using h)⟩
  · rintro ⟨pre, post, h⟩
    exact ⟨pre.data, post.data, by simp [h]⟩

theorem dropWhile_eq_nil_iff_all (p : Char → Bool) (l : List Char) :
    l.dropWhile p = [] ↔ ∀ c ∈ l, p c = true := by
  induction l with
  | nil => simp
  | cons a l ih =>
    by_cases h : p a = true
    · simp [List.dropWhile, h, ih]
    · simp [List.dropWhile, h]

theorem TrimSpace_eq_empty_iff (s : String) :
    TrimSpace s = "" ↔ ∀ c ∈ s.data, isSpace c = true := by
  have h0 : TrimSpace s = "" ↔
      ((s.data.dropWhile isSpace).reverse.dropWhile isSpace).reverse = [] := by
    unfold TrimSpace
    constructor
    · intro h
      have := congrArg String.data h
      simpa using this
    · intro h
      exact String.ext (by simpa using h)
  rw [h0, List.reverse_eq_nil_iff, dropWhile_eq_nil_iff_all]
  constructor
  · intro h
    have h1 : s.data.dropWhile isSpace = [] := by
      cases hd : s.data.dropWhile isSpace with
      | nil => rfl
      | cons a l =>
        have ha : isSpace a = true := h a (by simp [hd])
        have hna := List.head_dropWhile_not isSpace s.data (by simp [hd])
        simp [hd, ha] at hna
    exact (dropWhile_eq_nil_iff_all _ _).1 h1
  · intro h c hc
    have : s.data.dropWhile isSpace = [] := (dropWhile_eq_nil_iff_all _ _).2 h
    simp [this] at hc

/-! ## Facts about decoding -/

theorem mappingStruct_failed {σ : Type} (isField : String → Bool)
    (setField : String → Node → σ → Option σ) (es : List (String × Node)) (s : σ)
    (d : List String) : (mappingStruct isField setField es (s, d, true)).2.2 = true := by
  induction es generalizing s d with
  | nil => rfl
  | cons e es ih =>
    obtain ⟨k, v⟩ := e
    simp only [mappingStruct]
    split
    · split
      · exact ih s d
      · split
        · exact ih _ _
        · exact ih _ _
    · exact ih s d

/-- What one round of the loop did, when the loop records no error. -/
theorem mappingStruct_cons_ok {σ : Type} (isField : String → Bool)
    (setField : String → Node → σ → Option σ) (k : String) (v : Node)
    (es : List (String × Node)) (s : σ) (d : List String)
    (hok : (mappingStruct isField setField ((k, v) :: es) (s, d, false)).2.2 = false) :
    (isField k = true → ∃ s1, k ∉ d ∧ setField k v s = some s1 ∧
      mappingStruct isField setField ((k, v) :: es) (s, d, false) =
        mappingStruct isField setField es (s1, k :: d, false)) ∧
    (isField k = false →
      mappingStruct isField setField ((k, v) :: es) (s, d, false) =
        mappingStruct isField setField es (s, d, false)) := by
  constructor
  · intro hk
    by_cases hc : d.contains k = true
    · simp only [mappingStruct, hk, hc, if_true] at hok
      rw [mappingStruct_failed] at hok
      exact absurd hok (by simp)
    · have hc1 : d.contains k = false := by simpa using hc
      cases hset : setField k v s with
      | none =>
        simp only [mappingStruct, hk, hc1, hset, if_true, Bool.false_eq_true, if_false] at hok
        rw [mappingStruct_failed] at hok
        exact absurd hok (by simp)
      | some s1 =>
        refine ⟨s1, by simpa using hc, rfl, ?_⟩
        simp only [mappingStruct, hk, hc1, hset, if_true, Bool.false_eq_true, if_false]
  · intro hk
    simp only [mappingStruct, hk, Bool.false_eq_true, if_false]

/-- A component `π` of the struct that only the key `tag` writes ends as the value under
`tag` makes it, when the loop records no error. -/
theorem mappingStruct_component {σ α : Type} (isField : String → Bool)
    (setField : String → Node → σ → Option σ) (tag : String) (π : σ → α)
    (upd : Node → α → Option α)
    (hother : ∀ k v s s1, k ≠ tag → setField k v s = some s1 → π s1 = π s)
    (htag : ∀ v s s1, setField tag v s = some s1 → upd v (π s) = some (π s1))
    (hfield : isField tag = true) (es : List (String × Node)) (s : σ) (d : List String)
    (hd : tag ∉ d)
    (hok : (mappingStruct isField setField es (s, d, false)).2.2 = false) :
    match (es.find? fun e => e.1 = tag).map Prod.snd with
    | none => π (mappingStruct isField setField es (s, d, false)).1 = π s
    | some v => upd v (π s) = some (π (mappingStruct isField setField es (s, d, false)).1) := by
  have frozen : ∀ (es : List (String × Node)) (s : σ) (d : List String), tag ∈ d →
      (mappingStruct isField setField es (s, d, false)).2.2 = false →
      π (mappingStruct isField setField es (s, d, false)).1 = π s := by
    intro es
    induction es with
    | nil => intro s d _ _; rfl
    | cons e es ih =>
      obtain ⟨k, v⟩ := e
      intro s d hmem hok
      have hstep := mappingStruct_cons_ok isField setField k v es s d hok
      cases hk : isField k with
      | true =>
        obtain ⟨s1, hkd, hset, heq⟩ := hstep.1 hk
        rw [heq] at hok ⊢
        have hkt : k ≠ tag := by
          rintro rfl
          exact hkd hmem
        rw [ih s1 (k :: d) (List.mem_cons_of_mem _ hmem) hok]
        exact hother k v s s1 hkt hset
      | false =>
        have heq := hstep.2 hk
        rw [heq] at hok ⊢
        exact ih s d hmem hok
  induction es generalizing s d with
  | nil => simp [mappingStruct]
  | cons e es ih =>
    obtain ⟨k, v⟩ := e
    have hstep := mappingStruct_cons_ok isField setField k v es s d hok
    cases hk : isField k with
    | true =>
      obtain ⟨s1, hkd, hset, heq⟩ := hstep.1 hk
      rw [heq] at hok ⊢
      by_cases hkt : k = tag
      · subst hkt
        simp only [List.find?_cons_of_pos, decide_True, Option.map_some']
        rw [frozen es s1 (k :: d) (List.mem_cons_self _ _) hok]
        exact htag v s s1 hset
      · have hne : decide (k = tag) = false := by simp [hkt]
        simp only [List.find?, hne]
        have hd1 : tag ∉ k :: d := by
          simp only [List.mem_cons, not_or]
          exact ⟨fun h => hkt h.symm, hd⟩
        have := ih s1 (k :: d) hd1 hok
        rw [hother k v s s1 hkt hset] at this
        exact this
    | false =>
      have heq := hstep.2 hk
      rw [heq] at hok ⊢
      have hkt : k ≠ tag := by
        rintro rfl
        rw [hfield] at hk
        exact absurd hk (by simp)
      have hne : decide (k = tag) = false := by simp [hkt]
      simp only [List.find?, hne]
      exact ih s d hd hok

open Kube

theorem setField_cases (y : YamlV3) (k : String) (v : Node) (s s1 : secretYaml)
    (h : secretYaml.setField y k v s = some s1) :
    (k = "apiVersion" ∧ decodeString v s.APIVersion = some s1.APIVersion ∧
        s1 = { s with APIVersion := s1.APIVersion }) ∨
    (k = "data" ∧ y.decodeAny v = some s1.Data ∧ s1 = { s with Data := s1.Data }) ∨
    (k = "kind" ∧ decodeString v s.Kind = some s1.Kind ∧ s1 = { s with Kind := s1.Kind }) ∨
    (k = "metadata" ∧
        decodeStruct parameters.isField parameters.setField v s.Metadata = (s1.Metadata, false) ∧
        s1 = { s with Metadata := s1.Metadata }) ∨
    (k = "type" ∧ decodeString v s.TypeSecret = some s1.TypeSecret ∧
        s1 = { s with TypeSecret := s1.TypeSecret }) ∨
    (secretYaml.isField k = false ∧ s1 = s) := by
  unfold secretYaml.setField at h
  by_cases h1 : k = "apiVersion"
  · rw [if_pos h1] at h
    cases hd : decodeString v s.APIVersion with
    | none => simp [hd] at h
    | some t =>
      simp only [hd, Option.map_some', Option.some.injEq] at h
      subst h
      exact Or.inl ⟨h1, rfl, rfl⟩
  rw [if_neg h1] at h
  by_cases h2 : k = "data"
  · rw [if_pos h2] at h
    cases hd : y.decodeAny v with
    | none => simp [hd] at h
    | some t =>
      simp only [hd, Option.map_some', Option.some.injEq] at h
      subst h
      exact Or.inr (Or.inl ⟨h2, rfl, rfl⟩)
  rw [if_neg h2] at h
  by_cases h3 : k = "kind"
  · rw [if_pos h3] at h
    cases hd : decodeString v s.Kind with
    | none => simp [hd] at h
    | some t =>
      simp only [hd, Option.map_some', Option.some.injEq] at h
      subst h
      exact Or.inr (Or.inr (Or.inl ⟨h3, rfl, rfl⟩))
  rw [if_neg h3] at h
  by_cases h4 : k = "metadata"
  · rw [if_pos h4] at h
    rcases hd : decodeStruct parameters.isField parameters.setField v s.Metadata with ⟨p, b⟩
    cases b with
    | true => simp [hd] at h
    | false =>
      simp only [hd, Option.some.injEq] at h
      subst h
      exact Or.inr (Or.inr (Or.inr (Or.inl ⟨h4, rfl, rfl⟩)))
  rw [if_neg h4] at h
  by_cases h5 : k = "type"
  · rw [if_pos h5] at h
    cases hd : decodeString v s.TypeSecret with
    | none => simp [hd] at h
    | some t =>
      simp only [hd, Option.map_some', Option.some.injEq] at h
      subst h
      exact Or.inr (Or.inr (Or.inr (Or.inr (Or.inl ⟨h5, rfl, rfl⟩))))
  rw [if_neg h5] at h
  simp only [Option.some.injEq] at h
  exact Or.inr (Or.inr (Or.inr (Or.inr (Or.inr ⟨by simp [secretYaml.isField, h1, h2, h3, h4, h5], h.symm⟩))))

theorem Node.at?_one (n : Node) (k : String) : n.at? [k] = n.get? k := by
  cases h : n.get? k <;> simp [Node.at?, h]

theorem Node.at?_two (n : Node) (k1 k2 : String) :
    n.at? [k1, k2] = (n.get? k1).bind fun m => m.get? k2 := by
  cases h : n.get? k1 <;> simp [Node.at?, h, Node.at?_one]

theorem decodeString_fieldText (v : Node) (t : String) (h : decodeString v "" = some t) :
    t = fieldText (some v) := by
  cases v <;> simp [decodeString, fieldText] at h ⊢ <;> exact h.symm

theorem parameters_setField_name (v : Node) (p p1 : parameters)
    (h : parameters.setField "name" v p = some p1) : decodeString v p.Name = some p1.Name := by
  unfold parameters.setField at h
  rw [if_pos rfl] at h
  cases hd : decodeString v p.Name with
  | none => simp [hd] at h
  | some t =>
    simp only [hd, Option.map_some', Option.some.injEq] at h
    subst h
    rfl

theorem parameters_setField_other (k : String) (v : Node) (p p1 : parameters)
    (hk : k ≠ "name") (h : parameters.setField k v p = some p1) : p1.Name = p.Name := by
  unfold parameters.setField at h
  rw [if_neg hk] at h
  simp only [Option.some.injEq] at h
  rw [h]

/-- The name that decoding `metadata` yields is the text under its key `name`. -/
theorem decodeStruct_parameters_name (v : Node) (p : parameters)
    (h : decodeStruct parameters.isField parameters.setField v ⟨""⟩ = (p, false)) :
    p.Name = fieldText (v.get? "name") := by
  cases v with
  | null =>
    simp only [decodeStruct, Prod.mk.injEq, and_true] at h
    subst h
    rfl
  | scalar t => simp [decodeStruct] at h
  | sequence xs => simp [decodeStruct] at h
  | mapping es =>
    simp only [decodeStruct] at h
    split at h
    · simp at h
    · simp only [Prod.mk.injEq] at h
      obtain ⟨h1, h2⟩ := h
      have := mappingStruct_component parameters.isField parameters.setField "name"
        parameters.Name (fun v old => decodeString v old)
        (fun k v s s1 hk hs => parameters_setField_other k v s s1 hk hs)
        (fun v s s1 hs => parameters_setField_name v s s1 hs)
        (by simp [parameters.isField]) es ⟨""⟩ [] (by simp) h2
      rw [h1] at this
      simp only [Node.get?]
      cases hf : (es.find? fun e => e.1 = "name").map Prod.snd with
      | none =>
        rw [hf] at this
        simpa [fieldText] using this
      | some w =>
        rw [hf] at this
        exact decodeString_fieldText w p.Name this

theorem Unmarshal_mapping (y : YamlV3) (es : List (String × Node)) (m : secretYaml)
    (h : Unmarshal y (RawManifest.document (Node.mapping es)) = some m) :
    repeatedKey (es.map Prod.fst) = false ∧
    (mappingStruct secretYaml.isField (secretYaml.setField y) es
      (secretYaml.zero, [], false)).2.2 = false ∧
    m = (mappingStruct secretYaml.isField (secretYaml.setField y) es
      (secretYaml.zero, [], false)).1 := by
  simp only [Unmarshal, decodeStruct] at h
  cases hr : repeatedKey (es.map Prod.fst) with
  | true => simp [hr] at h
  | false =>
    simp only [hr, Bool.false_eq_true, if_false] at h
    cases hb : (mappingStruct secretYaml.isField (secretYaml.setField y) es
        (secretYaml.zero, [], false)).2.2 with
    | true => simp [hb] at h
    | false =>
      simp only [hb, Option.some.injEq] at h
      exact ⟨rfl, rfl, h.symm⟩

/-- The manifest that `yaml.Unmarshal` fills holds, field by field, what stands in the raw
manifest at the five retained places. -/
theorem Unmarshal_fields (y : YamlV3) (raw : RawManifest) (m : secretYaml)
    (h : Unmarshal y raw = some m) :
    m.APIVersion = fieldText (raw.at? ["apiVersion"]) ∧
    fieldValue y (raw.at? ["data"]) = some m.Data ∧
    m.Kind = fieldText (raw.at? ["kind"]) ∧
    m.Metadata.Name = fieldText (raw.at? ["metadata", "name"]) ∧
    m.TypeSecret = fieldText (raw.at? ["type"]) := by
  cases raw with
  | malformed => simp [Unmarshal] at h
  | document root =>
    cases root with
    | null =>
      simp only [Unmarshal, decodeStruct, Option.some.injEq] at h
      subst h
      simp [RawManifest.at?, Node.at?, Node.get?, fieldText, fieldValue, secretYaml.zero]
    | scalar t q => simp [Unmarshal, decodeStruct] at h
    | sequence xs => simp [Unmarshal, decodeStruct] at h
    | mapping es =>
      obtain ⟨-, hok, hm⟩ := Unmarshal_mapping y es m h
      have comp := fun (α : Type) (tag : String) (π : secretYaml → α)
          (upd : Node → α → Option α) h1 h2 h3 =>
        mappingStruct_component secretYaml.isField (secretYaml.setField y) tag π upd h1 h2 h3
          es secretYaml.zero [] (by simp) hok
      rw [← hm] at comp
      have hget : ∀ k, (Node.mapping es).get? k = (es.find? fun e => e.1 = k).map Prod.snd :=
        fun _ => rfl
      simp only [RawManifest.at?, Node.at?_one, Node.at?_two, hget]
      refine ⟨?_, ?_, ?_, ?_, ?_⟩
      · have := comp String "apiVersion" secretYaml.APIVersion (fun v old => decodeString v old)
          (fun k v s s1 hk hs => by
            rcases setField_cases y k v s s1 hs with ⟨h, -⟩ | ⟨-, -, h⟩ | ⟨-, -, h⟩ | ⟨-, -, h⟩ |
              ⟨-, -, h⟩ | ⟨-, h⟩
            · exact absurd h hk
            all_goals rw [h])
          (fun v s s1 hs => by
            rcases setField_cases y _ v s s1 hs with ⟨-, h, -⟩ | ⟨h, -⟩ | ⟨h, -⟩ | ⟨h, -⟩ |
              ⟨h, -⟩ | ⟨h, -⟩
            · exact h
            all_goals simp [secretYaml.isField] at h)
          (by simp [secretYaml.isField])
        cases hf : (es.find? fun e => e.1 = "apiVersion").map Prod.snd with
        | none =>
          rw [hf] at this
          simpa [fieldText, secretYaml.zero] using this
        | some w =>
          rw [hf] at this
          simpa using decodeString_fieldText w m.APIVersion this
      · have := comp Value "data" secretYaml.Data (fun v _ => y.decodeAny v)
          (fun k v s s1 hk hs => by
            rcases setField_cases y k v s s1 hs with ⟨-, -, h⟩ | ⟨h, -⟩ | ⟨-, -, h⟩ |
              ⟨-, -, h⟩ | ⟨-, -, h⟩ | ⟨-, h⟩
            · rw [h]
            · exact absurd h hk
            all_goals rw [h])
          (fun v s s1 hs => by
            rcases setField_cases y _ v s s1 hs with ⟨h, -⟩ | ⟨-, h, -⟩ | ⟨h, -⟩ | ⟨h, -⟩ |
              ⟨h, -⟩ | ⟨h, -⟩
            · simp at h
            · exact h
            all_goals simp [secretYaml.isField] at h)
          (by simp [secretYaml.isField])
        cases hf : (es.find? fun e => e.1 = "data").map Prod.snd with
        | none =>
          rw [hf] at this
          simp only at this
          simp only [fieldValue, this]
          rfl
        | some w =>
          rw [hf] at this
          simpa [fieldValue] using this
      · have := comp String "kind" secretYaml.Kind (fun v old => decodeString v old)
          (fun k v s s1 hk hs => by
            rcases setField_cases y k v s s1 hs with ⟨-, -, h⟩ | ⟨-, -, h⟩ | ⟨h, -⟩ | ⟨-, -, h⟩ |
              ⟨-, -, h⟩ | ⟨-, h⟩
            · rw [h]
            · rw [h]
            · exact absurd h hk
            all_goals rw [h])
          (fun v s s1 hs => by
            rcases setField_cases y _ v s s1 hs with ⟨h, -⟩ | ⟨h, -⟩ | ⟨-, h, -⟩ | ⟨h, -⟩ |
              ⟨h, -⟩ | ⟨h, -⟩
            · simp at h
            · simp at h
            · exact h
            all_goals simp [secretYaml.isField] at h)
          (by simp [secretYaml.isField])
        cases hf : (es.find? fun e => e.1 = "kind").map Prod.snd with
        | none =>
          rw [hf] at this
          simpa [fieldText, secretYaml.zero] using this
        | some w =>
          rw [hf] at this
          simpa using decodeString_fieldText w m.Kind this
      · have := comp parameters "metadata" secretYaml.Metadata
          (fun v old =>
            match decodeStruct parameters.isField parameters.setField v old with
            | (p, false) => some p
            | (_, true) => none)
          (fun k v s s1 hk hs => by
            rcases setField_cases y k v s s1 hs with ⟨-, -, h⟩ | ⟨-, -, h⟩ | ⟨-, -, h⟩ | ⟨h, -⟩ |
              ⟨-, -, h⟩ | ⟨-, h⟩
            · rw [h]
            · rw [h]
            · rw [h]
            · exact absurd h hk
            all_goals rw [h])
          (fun v s s1 hs => by
            rcases setField_cases y _ v s s1 hs with ⟨h, -⟩ | ⟨h, -⟩ | ⟨h, -⟩ | ⟨-, h, -⟩ |
              ⟨h, -⟩ | ⟨h, -⟩
            · simp at h
            · simp at h
            · simp at h
            · simp only [h]
            all_goals simp [secretYaml.isField] at h)
          (by simp [secretYaml.isField])
        cases hf : (es.find? fun e => e.1 = "metadata").map Prod.snd with
        | none =>
          rw [hf] at this
          simp [fieldText, secretYaml.zero, this]
        | some w =>
          rw [hf] at this
          simp only [Option.some_bind]
          dsimp only at this
          rcases hd : decodeStruct parameters.isField parameters.setField w
            secretYaml.zero.Metadata with ⟨p, b⟩
          rw [hd] at this
          cases b with
          | true => simp at this
          | false =>
            simp only [Option.some.injEq] at this
            subst this
            exact decodeStruct_parameters_name w _ hd
      · have := comp String "type" secretYaml.TypeSecret (fun v old => decodeString v old)
          (fun k v s s1 hk hs => by
            rcases setField_cases y k v s s1 hs with ⟨-, -, h⟩ | ⟨-, -, h⟩ | ⟨-, -, h⟩ | ⟨-, -, h⟩ |
              ⟨h, -⟩ | ⟨-, h⟩
            · rw [h]
            · rw [h]
            · rw [h]
            · rw [h]
            · exact absurd h hk
            · rw [h])
          (fun v s s1 hs => by
            rcases setField_cases y _ v s s1 hs with ⟨h, -⟩ | ⟨h, -⟩ | ⟨h, -⟩ | ⟨h, -⟩ |
              ⟨-, h, -⟩ | ⟨h, -⟩
            · simp at h
            · simp at h
            · simp at h
            · simp at h
            · exact h
            · simp [secretYaml.isField] at h)
          (by simp [secretYaml.isField])
        cases hf : (es.find? fun e => e.1 = "type").map Prod.snd with
        | none =>
          rw [hf] at this
          simpa [fieldText, secretYaml.zero] using this
        | some w =>
          rw [hf] at this
          simpa using decodeString_fieldText w m.TypeSecret this


/-! ## The claims about the filter and the manifest -/

/-- C1: the loop of `createManifests` passes over a name `o` (launches no worker for it and
leaves the wait counter alone) if and only if `o` contains `default`, `registry` or
`pod-autoscaler-token` somewhere, whatever stands before and after, or `o` is empty after
trimming white space; otherwise it launches a worker for `o`. The loop of
`readSecretsFromNamespace` in `main.go` decides every name the same way. -/
theorem C1_exclusion_filter (o : String) :
    (createManifests_skips o = true ↔
      ((∃ pre post : String, o = pre ++ "default" ++ post) ∨
       (∃ pre post : String, o = pre ++ "registry" ++ post) ∨
       (∃ pre post : String, o = pre ++ "pod-autoscaler-token" ++ post) ∨
       TrimSpace o = "")) ∧
    MainPkg.readSecretsFromNamespace_skips o = createManifests_skips o ∧
    (∀ (env : Env) (k : Kubectl) (ns : String) (s : State) (rest : List String)
        (err : Option Err),
      stepMain env k ns { s with pc := Pc.loop (o :: rest) err } =
        some (if createManifests_skips o = true then { s with pc := Pc.loop rest err }
          else { s with pc := Pc.loop rest err, wg := s.wg + 1,
                        workers := s.workers ++ [⟨o, WorkerPc.launched⟩] })) := by
  refine ⟨?_, rfl, ?_⟩
  · rw [← Contains_iff, ← Contains_iff, ← Contains_iff]
    unfold createManifests_skips
    by_cases h1 : Contains o "default" = true
    · simp [h1]
    by_cases h2 : Contains o "registry" = true
    · simp [h1, h2]
    by_cases h3 : Contains o "pod-autoscaler-token" = true
    · simp [h1, h2, h3]
    by_cases h4 : TrimSpace o = ""
    · simp [h1, h2, h3, h4]
    · simp [h1, h2, h3, h4]
  · intro env k ns s rest err
    simp only [stepMain]
    split <;> rfl

/-- C4: a raw manifest that parses leaves in the sanitised manifest what stands at its five
retained places and nothing else: the texts under apiVersion, kind, metadata.name and type,
and the Go value that the library decodes the node under data to (`nil` when there is
none); the serialised document has these five fields alone. So two raw manifests that parse
and agree at the five places give the same sanitised manifest, the same serialised document
and the same call of `WriteFile`, whatever else they hold and whatever the library does
with a payload. -/
theorem C4_sanitised_manifest_is_the_five_fields (y : YamlV3) (raw : RawManifest)
    (m : secretYaml) (h : Unmarshal y raw = some m) :
    (m.APIVersion = fieldText (raw.at? ["apiVersion"]) ∧
      fieldValue y (raw.at? ["data"]) = some m.Data ∧
      m.Kind = fieldText (raw.at? ["kind"]) ∧
      m.Metadata.Name = fieldText (raw.at? ["metadata", "name"]) ∧
      m.TypeSecret = fieldText (raw.at? ["type"])) ∧
    (Marshal y m).keys = ["apiVersion", "data", "kind", "metadata", "type"] ∧
    ((Marshal y m).get? "metadata").map Node.keys = some ["name"] ∧
    (Marshal y m).get? "data" = some (y.encodeAny m.Data) ∧
    ∀ (raw2 : RawManifest) (m2 : secretYaml), Unmarshal y raw2 = some m2 →
      (∀ path ∈ retainedPaths, raw2.at? path = raw.at? path) →
      m2 = m ∧ Marshal y m2 = Marshal y m ∧
      ∀ (env : Env) (cwd : String), env.yaml = y →
        createSecretYAML env cwd raw2 = createSecretYAML env cwd raw := by
  refine ⟨Unmarshal_fields y raw m h, rfl, rfl, rfl, ?_⟩
  intro raw2 m2 h2 hagree
  have e : m2 = m := by
    obtain ⟨a1, a2, a3, a4, a5⟩ := Unmarshal_fields y raw m h
    obtain ⟨b1, b2, b3, b4, b5⟩ := Unmarshal_fields y raw2 m2 h2
    simp only [retainedPaths, List.mem_cons, List.mem_singleton, forall_eq_or_imp, forall_eq,
      List.not_mem_nil, false_implies, implies_true, and_true] at hagree
    obtain ⟨p1, p2, p3, p4, p5⟩ := hagree
    rw [p1] at b1
    rw [p2] at b2
    rw [p3] at b3
    rw [p4] at b4
    rw [p5] at b5
    rw [a2] at b2
    simp only [Option.some.injEq] at b2
    obtain ⟨x1, x2, x3, ⟨x4⟩, x5⟩ := m
    obtain ⟨z1, z2, z3, ⟨z4⟩, z5⟩ := m2
    simp only at a1 a3 a4 a5 b1 b2 b3 b4 b5
    rw [b1, b3, b4, b5, a1, a3, a4, a5, b2]
  refine ⟨e, by rw [e], ?_⟩
  intro env cwd hy
  simp only [createSecretYAML, hy, h, h2, e]

/-- C4 at the secret `db-creds` as two clusters print it. -/
theorem C4_sanitised_manifest_witness :
    Unmarshal exampleYaml dbCredsRaw = some dbCredsSanitized ∧
    Unmarshal exampleYaml dbCredsRawElsewhere = some dbCredsSanitized ∧
    Marshal exampleYaml dbCredsSanitized = Node.mapping
      [("apiVersion", Node.scalar "v1" false),
       ("data", Node.mapping [("password", Node.scalar "aHVudGVyMg==" false)]),
       ("kind", Node.scalar "Secret" false),
       ("metadata", Node.mapping [("name", Node.scalar "db-creds" false)]),
       ("type", Node.scalar "Opaque" false)] ∧
    (∀ path ∈ retainedPaths, dbCredsRawElsewhere.at? path = dbCredsRaw.at? path) ∧
    (∀ (env : Env) (cwd : String), env.yaml = exampleYaml →
      createSecretYAML env cwd dbCredsRawElsewhere = createSecretYAML env cwd dbCredsRaw) :=
  have agree : ∀ path ∈ retainedPaths, dbCredsRawElsewhere.at? path = dbCredsRaw.at? path := by
    intro path hp
    simp only [retainedPaths, List.mem_cons, List.mem_singleton, List.not_mem_nil,
      or_false] at hp
    rcases hp with rfl | rfl | rfl | rfl | rfl <;> rfl
  ⟨rfl, rfl, rfl, agree,
    ((C4_sanitised_manifest_is_the_five_fields exampleYaml dbCredsRaw dbCredsSanitized rfl).2.2.2.2
      dbCredsRawElsewhere dbCredsSanitized rfl agree).2.2⟩

/-- C5, the claim refuted: the raw manifest `floatRaw`, whose payload holds the plain scalar
`1e3`, is sanitised to a manifest whose payload holds a float; its serialised form holds
the plain scalar `1000`, and parsing that yields a manifest whose payload holds an integer:
not the manifest that was serialised, and not what sanitising `floatRaw` gave. -/
theorem C5_payload_is_not_read_back :
    Unmarshal exampleYaml floatRaw = some floatSanitized ∧
    (Marshal exampleYaml floatSanitized).get? "data" = some floatNodeWritten ∧
    Unmarshal exampleYaml (RawManifest.document (Marshal exampleYaml floatSanitized)) =
      some floatSanitizedAgain ∧
    floatSanitizedAgain.Data ≠ floatSanitized.Data ∧
    Unmarshal exampleYaml (RawManifest.document (Marshal exampleYaml floatSanitized)) ≠
      Unmarshal exampleYaml floatRaw := by
  have hne : floatSanitizedAgain.Data ≠ floatSanitized.Data := by
    simp [floatSanitizedAgain, floatSanitized, intValue, floatValue]
  refine ⟨rfl, rfl, rfl, hne, ?_⟩
  intro h
  have h1 : Unmarshal exampleYaml (RawManifest.document (Marshal exampleYaml floatSanitized)) =
      some floatSanitizedAgain := rfl
  have h2 : Unmarshal exampleYaml floatRaw = some floatSanitized := rfl
  rw [h1, h2] at h
  exact hne (congrArg secretYaml.Data (Option.some.inj h))

/-- C5 as amended: parsing the serialised form of a sanitised manifest `m` yields `m` with
its payload replaced by what the library reads back from what it wrote for the payload of
`m` (and fails when the library cannot read that back). So the result equals `m` in
apiVersion, kind, metadata.name and type always, and in data exactly as far as the library
reads the payload back unchanged; under that condition sanitising, serialising and
sanitising again is the same as sanitising once. -/
theorem C5_round_trip (y : YamlV3) (m : secretYaml) :
    Unmarshal y (RawManifest.document (Marshal y m)) =
      (y.decodeAny (y.encodeAny m.Data)).map (fun d => { m with Data := d }) ∧
    (∀ m1 : secretYaml, Unmarshal y (RawManifest.document (Marshal y m)) = some m1 →
      m1.APIVersion = m.APIVersion ∧ m1.Kind = m.Kind ∧
      m1.Metadata.Name = m.Metadata.Name ∧ m1.TypeSecret = m.TypeSecret ∧
      y.decodeAny (y.encodeAny m.Data) = some m1.Data) ∧
    (y.decodeAny (y.encodeAny m.Data) = some m.Data →
      Unmarshal y (RawManifest.document (Marshal y m)) = some m ∧
      ∀ raw : RawManifest, Unmarshal y raw = some m →
        ((Unmarshal y raw).bind fun m1 => Unmarshal y (RawManifest.document (Marshal y m1))) =
          Unmarshal y raw) := by
  have rt : Unmarshal y (RawManifest.document (Marshal y m)) =
      (y.decodeAny (y.encodeAny m.Data)).map (fun d => { m with Data := d }) := by
    obtain ⟨a, d, k, ⟨n⟩, t⟩ := m
    cases hd : y.decodeAny (y.encodeAny d) with
    | none =>
      simp [Unmarshal, Marshal, decodeStruct, repeatedKey, mappingStruct, secretYaml.isField,
        secretYaml.setField, parameters.isField, parameters.setField, decodeString,
        secretYaml.zero, hd]
    | some v =>
      simp [Unmarshal, Marshal, decodeStruct, repeatedKey, mappingStruct, secretYaml.isField,
        secretYaml.setField, parameters.isField, parameters.setField, decodeString,
        secretYaml.zero, hd]
  refine ⟨rt, ?_, ?_⟩
  · intro m1 h1
    rw [rt] at h1
    cases hd : y.decodeAny (y.encodeAny m.Data) with
    | none => simp [hd] at h1
    | some v =>
      simp only [hd, Option.map_some', Option.some.injEq] at h1
      subst h1
      exact ⟨rfl, rfl, rfl, rfl, rfl⟩
  · intro hback
    have hm : Unmarshal y (RawManifest.document (Marshal y m)) = some m := by
      rw [rt, hback]
      rfl
    refine ⟨hm, ?_⟩
    intro raw hraw
    rw [hraw]
    exact hm

/-- C5 as amended, at the secret `db-creds`, whose payload of strings is read back as it
was written. -/
theorem C5_round_trip_witness :
    exampleYaml.decodeAny (exampleYaml.encodeAny dbCredsSanitized.Data) =
      some dbCredsSanitized.Data ∧
    Unmarshal exampleYaml (RawManifest.document (Marshal exampleYaml dbCredsSanitized)) =
      some dbCredsSanitized ∧
    ((Unmarshal exampleYaml dbCredsRaw).bind fun m1 =>
      Unmarshal exampleYaml (RawManifest.document (Marshal exampleYaml m1))) =
        Unmarshal exampleYaml dbCredsRaw :=
  have h := (C5_round_trip exampleYaml dbCredsSanitized).2.2 rfl
  ⟨rfl, h.1, h.2 dbCredsRaw rfl⟩

/-- C7, the claim refuted: the config map `configMapRaw`, which has no `type`, is sanitised
to a manifest of kind `ConfigMap` whose serialised document does hold a `type` field, with
the empty text. -/
theorem C7_type_field_counterexample :
    Unmarshal exampleYaml configMapRaw = some configMapSanitized ∧
    configMapSanitized.Kind = "ConfigMap" ∧
    configMapRaw.at? ["type"] = none ∧
    "type" ∈ (Marshal exampleYaml configMapSanitized).keys ∧
    (Marshal exampleYaml configMapSanitized).get? "type" = some (Node.scalar "" true) :=
  ⟨rfl, rfl, rfl, by decide, rfl⟩

/-- C7 as amended: the serialised document of a sanitised raw manifest of kind `ConfigMap`
has the keys apiVersion, data, kind, metadata, type and no other: it always holds a `type`
field (the text of the raw manifest's `type`, empty when it has none), its `metadata` holds
`name` alone, and it holds no namespace and no resourceVersion field. -/
theorem C7_config_map_output (y : YamlV3) (raw : RawManifest) (m : secretYaml)
    (h : Unmarshal y raw = some m) (hkind : m.Kind = "ConfigMap") :
    (Marshal y m).keys = ["apiVersion", "data", "kind", "metadata", "type"] ∧
    (Marshal y m).get? "kind" = some (Node.scalar "ConfigMap" (y.quotes "ConfigMap")) ∧
    (Marshal y m).get? "type" =
      some (Node.scalar (fieldText (raw.at? ["type"])) (y.quotes (fieldText (raw.at? ["type"])))) ∧
    ((Marshal y m).get? "metadata").map Node.keys = some ["name"] ∧
    (Marshal y m).at? ["namespace"] = none ∧
    (Marshal y m).at? ["resourceVersion"] = none ∧
    (Marshal y m).at? ["metadata", "namespace"] = none ∧
    (Marshal y m).at? ["metadata", "resourceVersion"] = none := by
  have ht := (Unmarshal_fields y raw m h).2.2.2.2
  refine ⟨rfl, ?_, ?_, rfl, rfl, rfl, rfl, rfl⟩
  · rw [← hkind]
    rfl
  · rw [← ht]
    rfl

/-- C7 as amended, at the config map `configMapRaw`. -/
theorem C7_config_map_output_witness :
    Unmarshal exampleYaml configMapRaw = some configMapSanitized ∧
    configMapSanitized.Kind = "ConfigMap" ∧
    (Marshal exampleYaml configMapSanitized).keys =
      ["apiVersion", "data", "kind", "metadata", "type"] ∧
    (Marshal exampleYaml configMapSanitized).get? "kind" =
      some (Node.scalar "ConfigMap" (exampleYaml.quotes "ConfigMap")) ∧
    (Marshal exampleYaml configMapSanitized).get? "type" =
      some (Node.scalar (fieldText (configMapRaw.at? ["type"]))
        (exampleYaml.quotes (fieldText (configMapRaw.at? ["type"])))) ∧
    ((Marshal exampleYaml configMapSanitized).get? "metadata").map Node.keys = some ["name"] ∧
    (Marshal exampleYaml configMapSanitized).at? ["namespace"] = none ∧
    (Marshal exampleYaml configMapSanitized).at? ["resourceVersion"] = none ∧
    (Marshal exampleYaml configMapSanitized).at? ["metadata", "namespace"] = none ∧
    (Marshal exampleYaml configMapSanitized).at? ["metadata", "resourceVersion"] = none :=
  ⟨rfl, rfl, C7_config_map_output exampleYaml configMapRaw configMapSanitized rfl rfl⟩

/-! ## The process: its moves and what every execution keeps -/

theorem step_sound (env : Env) (k : Kubectl) (ns : String) (s s1 : State) (t : Tid)
    (h : step env k ns s t = some s1) : Step env k ns s s1 := by
  unfold step at h
  cases hexit : s.exit with
  | some f => simp [hexit] at h
  | none =>
    simp only [hexit, Option.isSome_none, Bool.false_eq_true, if_false] at h
    cases t with
    | main =>
      simp only at h
      unfold stepMain at h
      split at h
      · rename_i hpc
        split at h
        · rename_i err herr
          simp only [Option.some.injEq] at h
          subst h
          exact Step.switchFailed s err hexit hpc herr
        · rename_i herr
          simp only [Option.some.injEq] at h
          subst h
          exact Step.switched s hexit hpc herr
      · rename_i hpc
        split at h
        · rename_i f hf
          simp only [Option.some.injEq] at h
          subst h
          exact Step.listFailed s f hexit hpc hf
        · rename_i objects err hf
          simp only [Option.some.injEq] at h
          subst h
          exact Step.listed s objects err hexit hpc hf
      · rename_i err hpc
        simp only [Option.some.injEq] at h
        subst h
        exact Step.loopEnd s err hexit hpc
      · rename_i o objects err hpc
        split at h
        · rename_i hskip
          simp only [Option.some.injEq] at h
          subst h
          exact Step.skipped s o objects err hexit hpc hskip
        · rename_i hskip
          simp only [Option.some.injEq] at h
          subst h
          exact Step.launched s o objects err hexit hpc (by simpa using hskip)
      · rename_i err hpc
        split at h
        · rename_i hwg
          simp only [Option.some.injEq] at h
          subst h
          exact Step.waited s err hexit hpc hwg
        · simp at h
      · rename_i err hpc
        simp only [Option.some.injEq] at h
        subst h
        exact Step.copyFailed s err hexit hpc
      · rename_i hpc
        simp only [Option.some.injEq] at h
        subst h
        exact Step.copyDone s hexit hpc
      · simp at h
    | worker i =>
      simp only at h
      split at h
      · simp at h
      · rename_i w hw
        unfold stepWorker at h
        split at h
        · rename_i hpc
          split at h
          · rename_i err herr
            simp only [Option.some.injEq] at h
            subst h
            exact Step.fetchFailed s i w err hexit hw hpc herr
          · rename_i herr
            simp only [Option.some.injEq] at h
            subst h
            exact Step.fetched s i w hexit hw hpc herr
        · rename_i out hpc
          split at h
          · rename_i hsec
            unfold createSecretYAML at h
            cases hm : Unmarshal env.yaml out with
            | none =>
              simp only [hm, Option.some.injEq] at h
              subst h
              exact Step.parseFailed s i w out hexit hw hpc hsec hm
            | some m =>
              simp only [hm, Option.some.injEq] at h
              subst h
              unfold workerReturn
              by_cases hwg : s.wg = 0
              · rw [if_pos hwg]
                exact Step.wrotePanicked s i w out m hexit hw hpc hsec hm hwg
              · rw [if_neg hwg]
                exact Step.wrote s i w out m hexit hw hpc hsec hm hwg
          · rename_i hsec
            simp only [Option.some.injEq] at h
            subst h
            unfold workerReturn
            by_cases hwg : s.wg = 0
            · rw [if_pos hwg]
              exact Step.passedPanicked s i w out hexit hw hpc (by simpa using hsec) hwg
            · rw [if_neg hwg]
              exact Step.passed s i w out hexit hw hpc (by simpa using hsec) hwg
        · simp at h

/-- What holds when `Copy` is entered and is kept by every move holds after every
schedule. -/
theorem run_invariant (env : Env) (k : Kubectl) (ns : String) (P : State → Prop)
    (h0 : P (State.init env)) (hstep : ∀ s s1, P s → Step env k ns s s1 → P s1)
    (sched : List Tid) : P (run env k ns sched) := by
  unfold run
  have gen : ∀ (l : List Tid) (s : State), P s → P (l.foldl (next env k ns) s) := by
    intro l
    induction l with
    | nil => intro s hs; exact hs
    | cons t l ih =>
      intro s hs
      simp only [List.foldl_cons]
      apply ih
      unfold next
      cases hst : step env k ns s t with
      | none => simpa using hs
      | some s1 => simpa using hstep s s1 hs (step_sound env k ns s s1 t hst)
  exact gen sched _ h0


/-! ### Lists of workers -/

theorem mem_set_cases {α : Type} (l : List α) (i : Nat) (a b : α) (h : a ∈ l.set i b) :
    a = b ∨ a ∈ l := by
  induction l generalizing i with
  | nil => simp at h
  | cons x l ih =>
    cases i with
    | zero =>
      simp only [List.set_cons_zero, List.mem_cons] at h
      rcases h with h | h
      · exact Or.inl h
      · exact Or.inr (List.mem_cons_of_mem _ h)
    | succ i =>
      simp only [List.set_cons_succ, List.mem_cons] at h
      rcases h with h | h
      · exact Or.inr (by simp [h])
      · rcases ih i h with h1 | h1
        · exact Or.inl h1
        · exact Or.inr (List.mem_cons_of_mem _ h1)

theorem mem_set_of_ne {α : Type} (l : List α) (i : Nat) (a b w0 : α)
    (hi : l.get? i = some w0) (ha : a ∈ l) (hne : a ≠ w0) : a ∈ l.set i b := by
  induction l generalizing i with
  | nil => simp at ha
  | cons x l ih =>
    cases i with
    | zero =>
      simp only [List.get?_cons_zero, Option.some.injEq] at hi
      subst hi
      simp only [List.mem_cons] at ha
      rcases ha with ha | ha
      · exact absurd ha hne
      · simp [ha]
    | succ i =>
      simp only [List.get?_cons_succ] at hi
      simp only [List.mem_cons] at ha
      simp only [List.set_cons_succ, List.mem_cons]
      rcases ha with ha | ha
      · exact Or.inl ha
      · exact Or.inr (ih i hi ha)

theorem mem_set_self {α : Type} (l : List α) (i : Nat) (b w0 : α)
    (hi : l.get? i = some w0) : b ∈ l.set i b := by
  induction l generalizing i with
  | nil => simp at hi
  | cons x l ih =>
    cases i with
    | zero => simp
    | succ i =>
      simp only [List.get?_cons_succ] at hi
      simp only [List.set_cons_succ, List.mem_cons]
      exact Or.inr (ih i hi)

theorem mem_of_get? {α : Type} (l : List α) (i : Nat) (w0 : α)
    (hi : l.get? i = some w0) : w0 ∈ l := by
  induction l generalizing i with
  | nil => simp at hi
  | cons x l ih =>
    cases i with
    | zero =>
      simp only [List.get?_cons_zero, Option.some.injEq] at hi
      simp [hi]
    | succ i =>
      simp only [List.get?_cons_succ] at hi
      exact List.mem_cons_of_mem _ (ih i hi)

theorem countP_set {α : Type} (p : α → Bool) (l : List α) (i : Nat) (b w0 : α)
    (hi : l.get? i = some w0) :
    (l.set i b).countP p + (if p w0 = true then 1 else 0) =
      l.countP p + (if p b = true then 1 else 0) := by
  induction l generalizing i with
  | nil => simp at hi
  | cons x l ih =>
    cases i with
    | zero =>
      simp only [List.get?_cons_zero, Option.some.injEq] at hi
      subst hi
      simp only [List.set_cons_zero, List.countP_cons]
      omega
    | succ i =>
      simp only [List.get?_cons_succ] at hi
      simp only [List.set_cons_succ, List.countP_cons]
      have := ih i hi
      omega

theorem map_set_same {α β : Type} (f : α → β) (l : List α) (i : Nat) (b w0 : α)
    (hi : l.get? i = some w0) (hf : f b = f w0) : (l.set i b).map f = l.map f := by
  induction l generalizing i with
  | nil => simp at hi
  | cons x l ih =>
    cases i with
    | zero =>
      simp only [List.get?_cons_zero, Option.some.injEq] at hi
      subst hi
      simp [hf]
    | succ i =>
      simp only [List.get?_cons_succ] at hi
      simp only [List.set_cons_succ, List.map_cons, ih i hi]

/-! ### What every execution keeps -/

/-- The wait counter is the number of running workers, and `Done` never meets a counter of
zero. -/
theorem run_counter (env : Env) (k : Kubectl) (ns : String) (sched : List Tid) :
    (run env k ns sched).wg = (run env k ns sched).workers.countP Worker.running ∧
    (run env k ns sched).exit ≠ some Fatal.negativeCounter := by
  apply run_invariant env k ns
    (fun s => s.wg = s.workers.countP Worker.running ∧ s.exit ≠ some Fatal.negativeCounter)
  · simp [State.init]
  · intro s s1 ⟨hc, hx⟩ hstep
    have running_fetched : ∀ (i : Nat) (w : Worker) (out : RawManifest),
        s.workers.get? i = some w → w.pc = WorkerPc.fetched out → s.wg ≠ 0 := by
      intro i w out hw hpc
      have hmem := mem_of_get? _ _ _ hw
      have hr : Worker.running w = true := by simp [Worker.running, hpc, WorkerPc.isReturned]
      have : 0 < s.workers.countP Worker.running := List.countP_pos_iff.2 ⟨w, hmem, hr⟩
      omega
    cases hstep with
    | switchFailed err h1 h2 h3 => exact ⟨hc, by simp⟩
    | switched h1 h2 h3 => exact ⟨hc, hx⟩
    | listFailed f h1 h2 h3 =>
      refine ⟨hc, ?_⟩
      simp only [readObjects] at h3
      split at h3
      · simp only [Except.error.injEq] at h3
        subst h3
        simp
      · simp at h3
    | listed objects err h1 h2 h3 => exact ⟨hc, hx⟩
    | loopEnd err h1 h2 => exact ⟨hc, hx⟩
    | skipped o objects err h1 h2 h3 => exact ⟨hc, hx⟩
    | launched o objects err h1 h2 h3 =>
      refine ⟨?_, hx⟩
      simp [List.countP_append, hc, Worker.running, WorkerPc.isReturned]
    | waited err h1 h2 h3 => exact ⟨hc, hx⟩
    | copyFailed err h1 h2 => exact ⟨hc, by simp⟩
    | copyDone h1 h2 => exact ⟨hc, hx⟩
    | fetchFailed i w err h1 h2 h3 h4 => exact ⟨hc, by simp⟩
    | fetched i w h1 h2 h3 h4 =>
      refine ⟨?_, hx⟩
      have := countP_set Worker.running s.workers i
        ⟨w.name, WorkerPc.fetched (env.getYaml w.name).1⟩ w h2
      simp only [Worker.running, h3, WorkerPc.isReturned, Bool.not_false, if_true] at this
      simp only [Worker.running] at hc ⊢
      omega
    | parseFailed i w out h1 h2 h3 h4 h5 => exact ⟨hc, by simp⟩
    | wrote i w out m h1 h2 h3 h4 h5 h6 =>
      refine ⟨?_, hx⟩
      have := countP_set Worker.running s.workers i ⟨w.name, WorkerPc.returned⟩ w h2
      simp only [Worker.running, h3, WorkerPc.isReturned, Bool.not_false, Bool.not_true,
        if_true, Bool.false_eq_true, if_false] at this
      simp only [Worker.running] at hc ⊢
      omega
    | wrotePanicked i w out m h1 h2 h3 h4 h5 h6 =>
      exact absurd h6 (running_fetched i w out h2 h3)
    | passed i w out h1 h2 h3 h4 h5 =>
      refine ⟨?_, hx⟩
      have := countP_set Worker.running s.workers i ⟨w.name, WorkerPc.returned⟩ w h2
      simp only [Worker.running, h3, WorkerPc.isReturned, Bool.not_false, Bool.not_true,
        if_true, Bool.false_eq_true, if_false] at this
      simp only [Worker.running] at hc ⊢
      omega
    | passedPanicked i w out h1 h2 h3 h4 h5 =>
      exact absurd h5 (running_fetched i w out h2 h3)


/-- Past `wg.Wait()` the wait counter is zero. -/
theorem run_barrier (env : Env) (k : Kubectl) (ns : String) (sched : List Tid) :
    ((∃ err, (run env k ns sched).pc = Pc.returned err) ∨ (run env k ns sched).pc = Pc.done) →
    (run env k ns sched).wg = 0 := by
  apply run_invariant env k ns
    (fun s => ((∃ err, s.pc = Pc.returned err) ∨ s.pc = Pc.done) → s.wg = 0)
  · simp [State.init]
  · intro s s1 hs hstep
    cases hstep with
    | switchFailed err h1 h2 h3 => exact hs
    | switched h1 h2 h3 => simp
    | listFailed f h1 h2 h3 => exact hs
    | listed objects err h1 h2 h3 => simp
    | loopEnd err h1 h2 => simp
    | skipped o objects err h1 h2 h3 => simp
    | launched o objects err h1 h2 h3 => simp
    | waited err h1 h2 h3 => intro _; exact h3
    | copyFailed err h1 h2 => exact hs
    | copyDone h1 h2 => intro _; exact hs (Or.inl ⟨none, h2⟩)
    | fetchFailed i w err h1 h2 h3 h4 => exact hs
    | fetched i w h1 h2 h3 h4 => exact hs
    | parseFailed i w out h1 h2 h3 h4 h5 => exact hs
    | wrote i w out m h1 h2 h3 h4 h5 h6 =>
      intro hpc
      have := hs hpc
      simp only
      omega
    | wrotePanicked i w out m h1 h2 h3 h4 h5 h6 => exact hs
    | passed i w out h1 h2 h3 h4 h5 =>
      intro hpc
      have := hs hpc
      simp only
      omega
    | passedPanicked i w out h1 h2 h3 h4 h5 => exact hs

theorem readObjects_ok (env : Env) (object : String) (objects : List String)
    (err : Option Err) (h : readObjects env object = Except.ok (objects, err)) :
    TrimSpace (env.getNames object).1 ≠ "" ∧
    objects = Split (TrimSpace (env.getNames object).1) '\n' ∧
    err = (env.getNames object).2 := by
  simp only [readObjects] at h
  split at h
  · simp at h
  · rename_i hne
    simp only [Except.ok.injEq, Prod.mk.injEq] at h
    exact ⟨hne, h.1.symm, h.2.symm⟩

/-- The workers launched so far, followed by the survivors among the names still to visit,
are the survivors of the listing; before the listing there is no worker. -/
theorem run_launched (env : Env) (k : Kubectl) (ns : String) (sched : List Tid) :
    match (run env k ns sched).pc.pending with
    | none => (run env k ns sched).workers = []
    | some rest =>
      ∃ all, readObjects env k.name = Except.ok (all, (run env k ns sched).pc.listErr) ∧
        (run env k ns sched).launched ++ survivors rest = survivors all := by
  apply run_invariant env k ns
    (fun s =>
      match s.pc.pending with
      | none => s.workers = []
      | some rest =>
        ∃ all, readObjects env k.name = Except.ok (all, s.pc.listErr) ∧
          s.launched ++ survivors rest = survivors all)
  · simp [State.init, Pc.pending]
  · intro s s1 hs hstep
    have noWorker : ∀ (i : Nat) (w : Worker), s.workers.get? i = some w →
        s.pc.pending = none → False := by
      intro i w hw hp
      rw [hp] at hs
      simp only at hs
      rw [hs] at hw
      simp at hw
    have setName : ∀ (i : Nat) (w : Worker) (pc : WorkerPc), s.workers.get? i = some w →
        (s.workers.set i ⟨w.name, pc⟩).map Worker.name = s.workers.map Worker.name :=
      fun i w pc hw => map_set_same Worker.name s.workers i ⟨w.name, pc⟩ w hw rfl
    cases hstep with
    | switchFailed err h1 h2 h3 => exact hs
    | switched h1 h2 h3 =>
      rw [h2] at hs
      simpa [Pc.pending] using hs
    | listFailed f h1 h2 h3 => exact hs
    | listed objects err h1 h2 h3 =>
      rw [h2] at hs
      simp only [Pc.pending] at hs
      simp only [Pc.pending, Pc.listErr, State.launched, hs, List.map_nil, List.nil_append]
      exact ⟨objects, h3, rfl⟩
    | loopEnd err h1 h2 =>
      rw [h2] at hs
      simpa [Pc.pending, Pc.listErr, State.launched] using hs
    | skipped o objects err h1 h2 h3 =>
      rw [h2] at hs
      simp only [Pc.pending, Pc.listErr, State.launched] at hs ⊢
      obtain ⟨all, ha, hl⟩ := hs
      refine ⟨all, ha, ?_⟩
      rw [← hl]
      simp [survivors, List.filter_cons, h3]
    | launched o objects err h1 h2 h3 =>
      rw [h2] at hs
      simp only [Pc.pending, Pc.listErr, State.launched] at hs ⊢
      obtain ⟨all, ha, hl⟩ := hs
      refine ⟨all, ha, ?_⟩
      rw [← hl]
      simp [survivors, List.filter_cons, h3]
    | waited err h1 h2 h3 =>
      rw [h2] at hs
      simpa [Pc.pending, Pc.listErr, State.launched] using hs
    | copyFailed err h1 h2 => exact hs
    | copyDone h1 h2 =>
      rw [h2] at hs
      simpa [Pc.pending, Pc.listErr, State.launched] using hs
    | fetchFailed i w err h1 h2 h3 h4 => exact hs
    | fetched i w h1 h2 h3 h4 =>
      cases hp : s.pc.pending with
      | none => exact (noWorker i w h2 hp).elim
      | some rest =>
        rw [hp] at hs
        simp only [hp, State.launched, setName i w _ h2] at hs ⊢
        exact hs
    | parseFailed i w out h1 h2 h3 h4 h5 => exact hs
    | wrote i w out m h1 h2 h3 h4 h5 h6 =>
      cases hp : s.pc.pending with
      | none => exact (noWorker i w h2 hp).elim
      | some rest =>
        rw [hp] at hs
        simp only [hp, State.launched, setName i w _ h2] at hs ⊢
        exact hs
    | wrotePanicked i w out m h1 h2 h3 h4 h5 h6 => exact hs
    | passed i w out h1 h2 h3 h4 h5 =>
      cases hp : s.pc.pending with
      | none => exact (noWorker i w h2 hp).elim
      | some rest =>
        rw [hp] at hs
        simp only [hp, State.launched, setName i w _ h2] at hs ⊢
        exact hs
    | passedPanicked i w out h1 h2 h3 h4 h5 => exact hs


/-- Where the files go: the working directory is the one `Copy` left the process in; a worker
that has fetched holds the output of its own fetch; a returned worker whose name contains
`secret` has made its call of `WriteFile`; and every call of `WriteFile` is such a one. -/
theorem run_writes (env : Env) (k : Kubectl) (ns : String) (sched : List Tid) :
    ((run env k ns sched).pc = Pc.start → (run env k ns sched).workers = [] ∧
      (run env k ns sched).cwd = env.workingDir) ∧
    ((run env k ns sched).pc ≠ Pc.start → (run env k ns sched).cwd = workDir env k ns) ∧
    (∀ w ∈ (run env k ns sched).workers, ∀ out, w.pc = WorkerPc.fetched out →
      env.getYaml w.name = (out, none)) ∧
    (∀ w ∈ (run env k ns sched).workers, w.pc = WorkerPc.returned →
      Contains w.name "secret" = true →
      ∃ m, (env.getYaml w.name).2 = none ∧ Unmarshal env.yaml (env.getYaml w.name).1 = some m ∧
        writeOf env (workDir env k ns) m ∈ (run env k ns sched).writes) ∧
    (∀ wr ∈ (run env k ns sched).writes, ∃ w ∈ (run env k ns sched).workers,
      Contains w.name "secret" = true ∧
      ∃ m, (env.getYaml w.name).2 = none ∧ Unmarshal env.yaml (env.getYaml w.name).1 = some m ∧
        wr = writeOf env (workDir env k ns) m) := by
  apply run_invariant env k ns
    (fun s =>
      (s.pc = Pc.start → s.workers = [] ∧ s.cwd = env.workingDir) ∧
      (s.pc ≠ Pc.start → s.cwd = workDir env k ns) ∧
      (∀ w ∈ s.workers, ∀ out, w.pc = WorkerPc.fetched out →
        env.getYaml w.name = (out, none)) ∧
      (∀ w ∈ s.workers, w.pc = WorkerPc.returned → Contains w.name "secret" = true →
        ∃ m, (env.getYaml w.name).2 = none ∧ Unmarshal env.yaml (env.getYaml w.name).1 = some m ∧
          writeOf env (workDir env k ns) m ∈ s.writes) ∧
      (∀ wr ∈ s.writes, ∃ w ∈ s.workers, Contains w.name "secret" = true ∧
        ∃ m, (env.getYaml w.name).2 = none ∧ Unmarshal env.yaml (env.getYaml w.name).1 = some m ∧
          wr = writeOf env (workDir env k ns) m))
  · simp [State.init]
  · intro s s1 ⟨hstart, hcwd, hfetched, hwritten, horigin⟩ hstep
    have notStart : ∀ (i : Nat) (w : Worker), s.workers.get? i = some w → s.pc ≠ Pc.start := by
      intro i w hw hpc
      rw [(hstart hpc).1] at hw
      simp at hw
    -- the three facts about workers after worker `i` moved to `pc1` without writing
    have moved : ∀ (i : Nat) (w : Worker) (pc1 : WorkerPc) (writes1 : List Write),
        s.workers.get? i = some w → (∀ wr ∈ s.writes, wr ∈ writes1) →
        (∀ out, pc1 = WorkerPc.fetched out → env.getYaml w.name = (out, none)) →
        (pc1 = WorkerPc.returned → Contains w.name "secret" = true →
          ∃ m, (env.getYaml w.name).2 = none ∧ Unmarshal env.yaml (env.getYaml w.name).1 = some m ∧
            writeOf env (workDir env k ns) m ∈ writes1) →
        (∀ w1 ∈ s.workers.set i ⟨w.name, pc1⟩, ∀ out, w1.pc = WorkerPc.fetched out →
          env.getYaml w1.name = (out, none)) ∧
        (∀ w1 ∈ s.workers.set i ⟨w.name, pc1⟩, w1.pc = WorkerPc.returned →
          Contains w1.name "secret" = true →
          ∃ m, (env.getYaml w1.name).2 = none ∧ Unmarshal env.yaml (env.getYaml w1.name).1 = some m ∧
            writeOf env (workDir env k ns) m ∈ writes1) ∧
        (∀ wr ∈ s.writes, ∃ w1 ∈ s.workers.set i ⟨w.name, pc1⟩,
          Contains w1.name "secret" = true ∧
          ∃ m, (env.getYaml w1.name).2 = none ∧ Unmarshal env.yaml (env.getYaml w1.name).1 = some m ∧
            wr = writeOf env (workDir env k ns) m) := by
      intro i w pc1 writes1 hw hsub hf hr
      refine ⟨?_, ?_, ?_⟩
      · intro w1 hw1 out hpc
        rcases mem_set_cases _ _ _ _ hw1 with rfl | hmem
        · exact hf out hpc
        · exact hfetched w1 hmem out hpc
      · intro w1 hw1 hpc hsec
        rcases mem_set_cases _ _ _ _ hw1 with rfl | hmem
        · exact hr hpc hsec
        · obtain ⟨m, h1, h2, h3⟩ := hwritten w1 hmem hpc hsec
          exact ⟨m, h1, h2, hsub _ h3⟩
      · intro wr hwr
        obtain ⟨w1, hmem, hsec, m, h1, h2, h3⟩ := horigin wr hwr
        by_cases hname : w1.name = w.name
        · refine ⟨⟨w.name, pc1⟩, mem_set_self _ _ _ _ hw, ?_, m, ?_, ?_, h3⟩
          · rw [← hname]; exact hsec
          · rw [← hname]; exact h1
          · rw [← hname]; exact h2
        · refine ⟨w1, mem_set_of_ne _ _ _ _ _ hw hmem ?_, hsec, m, h1, h2, h3⟩
          rintro rfl
          exact hname rfl
    cases hstep with
    | switchFailed err h1 h2 h3 => exact ⟨hstart, hcwd, hfetched, hwritten, horigin⟩
    | switched h1 h2 h3 =>
      refine ⟨by simp, ?_, hfetched, hwritten, horigin⟩
      intro _
      simp only [workDir, (hstart h2).2]
    | listFailed f h1 h2 h3 => exact ⟨hstart, hcwd, hfetched, hwritten, horigin⟩
    | listed objects err h1 h2 h3 =>
      exact ⟨by simp, fun _ => hcwd (by simp [h2]), hfetched, hwritten, horigin⟩
    | loopEnd err h1 h2 =>
      exact ⟨by simp, fun _ => hcwd (by simp [h2]), hfetched, hwritten, horigin⟩
    | skipped o objects err h1 h2 h3 =>
      exact ⟨by simp, fun _ => hcwd (by simp [h2]), hfetched, hwritten, horigin⟩
    | launched o objects err h1 h2 h3 =>
      refine ⟨by simp, fun _ => hcwd (by simp [h2]), ?_, ?_, ?_⟩
      · intro w hw out hpc
        simp only [List.mem_append, List.mem_singleton] at hw
        rcases hw with hw | rfl
        · exact hfetched w hw out hpc
        · simp at hpc
      · intro w hw hpc hsec
        simp only [List.mem_append, List.mem_singleton] at hw
        rcases hw with hw | rfl
        · exact hwritten w hw hpc hsec
        · simp at hpc
      · intro wr hwr
        obtain ⟨w1, hmem, rest⟩ := horigin wr hwr
        exact ⟨w1, List.mem_append_left _ hmem, rest⟩
    | waited err h1 h2 h3 =>
      exact ⟨by simp, fun _ => hcwd (by simp [h2]), hfetched, hwritten, horigin⟩
    | copyFailed err h1 h2 => exact ⟨hstart, hcwd, hfetched, hwritten, horigin⟩
    | copyDone h1 h2 =>
      exact ⟨by simp, fun _ => hcwd (by simp [h2]), hfetched, hwritten, horigin⟩
    | fetchFailed i w err h1 h2 h3 h4 => exact ⟨hstart, hcwd, hfetched, hwritten, horigin⟩
    | fetched i w h1 h2 h3 h4 =>
      have hm := moved i w (WorkerPc.fetched (env.getYaml w.name).1) s.writes h2
        (fun _ h => h)
        (fun out hout => by
          simp only [WorkerPc.fetched.injEq] at hout
          rw [← hout, ← h4])
        (fun hr => by simp at hr)
      exact ⟨fun hpc => absurd hpc (notStart i w h2), hcwd, hm.1, hm.2.1, hm.2.2⟩
    | parseFailed i w out h1 h2 h3 h4 h5 => exact ⟨hstart, hcwd, hfetched, hwritten, horigin⟩
    | wrote i w out m h1 h2 h3 h4 h5 h6 =>
      have hy := hfetched w (mem_of_get? _ _ _ h2) out h3
      have hdir : s.cwd = workDir env k ns := hcwd (notStart i w h2)
      have hm := moved i w WorkerPc.returned
        (s.writes ++ [writeOf env (workDir env k ns) m]) h2
        (fun _ h => List.mem_append_left _ h)
        (fun out hout => by simp at hout)
        (fun _ _ => ⟨m, by rw [hy], by rw [hy]; exact h5, by simp⟩)
      refine ⟨fun hpc => absurd hpc (notStart i w h2), hcwd, hm.1, ?_, ?_⟩
      · simpa only [hdir, writeOf] using hm.2.1
      · intro wr hwr
        simp only [List.mem_append, List.mem_singleton] at hwr
        rcases hwr with hwr | rfl
        · exact hm.2.2 wr hwr
        · refine ⟨⟨w.name, WorkerPc.returned⟩, mem_set_self _ _ _ _ h2, h4, m, ?_, ?_, ?_⟩
          · rw [hy]
          · rw [hy]; exact h5
          · simp only [hdir, writeOf]
    | wrotePanicked i w out m h1 h2 h3 h4 h5 h6 =>
      have hy := hfetched w (mem_of_get? _ _ _ h2) out h3
      have hdir : s.cwd = workDir env k ns := hcwd (notStart i w h2)
      refine ⟨hstart, hcwd, hfetched, ?_, ?_⟩
      · intro w1 hw1 hpc hsec
        obtain ⟨m1, a, b, c⟩ := hwritten w1 hw1 hpc hsec
        exact ⟨m1, a, b, List.mem_append_left _ c⟩
      · intro wr hwr
        simp only [List.mem_append, List.mem_singleton] at hwr
        rcases hwr with hwr | rfl
        · exact horigin wr hwr
        · refine ⟨w, mem_of_get? _ _ _ h2, h4, m, ?_, ?_, ?_⟩
          · rw [hy]
          · rw [hy]; exact h5
          · simp only [hdir, writeOf]
    | passed i w out h1 h2 h3 h4 h5 =>
      have hm := moved i w WorkerPc.returned s.writes h2
        (fun _ h => h)
        (fun out hout => by simp at hout)
        (fun _ hsec => by rw [h4] at hsec; simp at hsec)
      exact ⟨fun hpc => absurd hpc (notStart i w h2), hcwd, hm.1, hm.2.1, hm.2.2⟩
    | passedPanicked i w out h1 h2 h3 h4 h5 =>
      exact ⟨hstart, hcwd, hfetched, hwritten, horigin⟩

/-- The directory is reported exactly when `Copy` has finished, and the process ends with
the error of `createManifests` only from the place where `Copy` has received it. -/
theorem run_report (env : Env) (k : Kubectl) (ns : String) (sched : List Tid) :
    (run env k ns sched).reported =
      (if (run env k ns sched).pc = Pc.done then some (Copy_dir env k ns) else none) ∧
    (∀ err, (run env k ns sched).exit = some (Fatal.createManifests err) →
      (run env k ns sched).pc = Pc.returned (some err)) := by
  apply run_invariant env k ns
    (fun s =>
      s.reported = (if s.pc = Pc.done then some (Copy_dir env k ns) else none) ∧
      (∀ err, s.exit = some (Fatal.createManifests err) → s.pc = Pc.returned (some err)))
  · simp [State.init]
  · intro s s1 ⟨hrep, hexit⟩ hstep
    have readObjects_fatal : ∀ f, readObjects env k.name = Except.error f →
        ∀ err, f ≠ Fatal.createManifests err := by
      intro f hf err
      simp only [readObjects] at hf
      split at hf
      · simp only [Except.error.injEq] at hf
        subst hf
        simp
      · simp at hf
    cases hstep with
    | switchFailed err h1 h2 h3 => exact ⟨hrep, by simp⟩
    | switched h1 h2 h3 => exact ⟨by simpa [h2] using hrep, by simp [h1]⟩
    | listFailed f h1 h2 h3 =>
      refine ⟨hrep, ?_⟩
      intro err he
      simp only [Option.some.injEq] at he
      exact absurd he (readObjects_fatal f h3 err)
    | listed objects err h1 h2 h3 => exact ⟨by simpa [h2] using hrep, by simp [h1]⟩
    | loopEnd err h1 h2 => exact ⟨by simpa [h2] using hrep, by simp [h1]⟩
    | skipped o objects err h1 h2 h3 => exact ⟨by simpa [h2] using hrep, by simp [h1]⟩
    | launched o objects err h1 h2 h3 => exact ⟨by simpa [h2] using hrep, by simp [h1]⟩
    | waited err h1 h2 h3 => exact ⟨by simpa [h2] using hrep, by simp [h1]⟩
    | copyFailed err h1 h2 =>
      refine ⟨hrep, ?_⟩
      intro e he
      simp only [Option.some.injEq, Fatal.createManifests.injEq] at he
      rw [← he]
      exact h2
    | copyDone h1 h2 => exact ⟨by simp, by simp [h1]⟩
    | fetchFailed i w err h1 h2 h3 h4 => exact ⟨hrep, by simp⟩
    | fetched i w h1 h2 h3 h4 => exact ⟨hrep, hexit⟩
    | parseFailed i w out h1 h2 h3 h4 h5 => exact ⟨hrep, by simp⟩
    | wrote i w out m h1 h2 h3 h4 h5 h6 => exact ⟨hrep, hexit⟩
    | wrotePanicked i w out m h1 h2 h3 h4 h5 h6 => exact ⟨hrep, by simp⟩
    | passed i w out h1 h2 h3 h4 h5 => exact ⟨hrep, hexit⟩
    | passedPanicked i w out h1 h2 h3 h4 h5 => exact ⟨hrep, by simp⟩


/-! ### Splitting -/

theorem splitChars_ne_nil (sep : Char) (s : List Char) : splitChars sep s ≠ [] := by
  induction s with
  | nil => simp [splitChars]
  | cons c s ih =>
    simp only [splitChars]
    split
    · simp
    · split <;> simp

theorem splitChars_intercalate (sep : Char) (s : List Char) :
    [sep].intercalate (splitChars sep s) = s := by
  induction s with
  | nil => simp [splitChars, List.intercalate]
  | cons c s ih =>
    simp only [splitChars]
    split
    · rename_i h
      subst h
      cases hs : splitChars c s with
      | nil => exact absurd hs (splitChars_ne_nil c s)
      | cons t ts =>
        rw [hs] at ih
        simp only [List.intercalate, List.intersperse, List.flatten] at ih ⊢
        simp [ih]
    · cases hs : splitChars sep s with
      | nil => exact absurd hs (splitChars_ne_nil sep s)
      | cons t ts =>
        rw [hs] at ih
        cases ts with
        | nil =>
          simp only [List.intercalate, List.intersperse, List.flatten] at ih ⊢
          simpa using ih
        | cons u us =>
          simp only [List.intercalate, List.intersperse, List.flatten] at ih ⊢
          simpa using ih

theorem splitChars_no_sep (sep : Char) (s : List Char) :
    ∀ t ∈ splitChars sep s, sep ∉ t := by
  induction s with
  | nil => simp [splitChars]
  | cons c s ih =>
    simp only [splitChars]
    split
    · intro t ht
      simp only [List.mem_cons] at ht
      rcases ht with rfl | ht
      · simp
      · exact ih t ht
    · rename_i hne
      cases hs : splitChars sep s with
      | nil => exact absurd hs (splitChars_ne_nil sep s)
      | cons u us =>
        rw [hs] at ih
        intro t ht
        simp only [List.mem_cons] at ht
        rcases ht with rfl | ht
        · simp only [List.mem_cons, not_or]
          exact ⟨fun h => hne h.symm, ih u (by simp)⟩
        · exact ih t (by simp [ht])

/-- While `readObjects` ends the process, the loop is never entered: there is no worker, no
call of `WriteFile` and no report. -/
theorem run_no_listing (env : Env) (k : Kubectl) (ns : String) (f : Fatal)
    (hro : readObjects env k.name = Except.error f) (sched : List Tid) :
    (run env k ns sched).pc.pending = none ∧ (run env k ns sched).workers = [] ∧
    (run env k ns sched).writes = [] ∧ (run env k ns sched).reported = none := by
  apply run_invariant env k ns
    (fun s => s.pc.pending = none ∧ s.workers = [] ∧ s.writes = [] ∧ s.reported = none)
  · simp [State.init, Pc.pending]
  · intro s s1 ⟨hp, hw, hwrites, hr⟩ hstep
    cases hstep with
    | switchFailed err h1 h2 h3 => exact ⟨hp, hw, hwrites, hr⟩
    | switched h1 h2 h3 => exact ⟨rfl, hw, hwrites, hr⟩
    | listFailed f h1 h2 h3 => exact ⟨hp, hw, hwrites, hr⟩
    | listed objects err h1 h2 h3 => rw [hro] at h3; simp at h3
    | loopEnd err h1 h2 => rw [h2] at hp; simp [Pc.pending] at hp
    | skipped o objects err h1 h2 h3 => rw [h2] at hp; simp [Pc.pending] at hp
    | launched o objects err h1 h2 h3 => rw [h2] at hp; simp [Pc.pending] at hp
    | waited err h1 h2 h3 => rw [h2] at hp; simp [Pc.pending] at hp
    | copyFailed err h1 h2 => rw [h2] at hp; simp [Pc.pending] at hp
    | copyDone h1 h2 => rw [h2] at hp; simp [Pc.pending] at hp
    | fetchFailed i w err h1 h2 h3 h4 => rw [hw] at h2; simp at h2
    | fetched i w h1 h2 h3 h4 => rw [hw] at h2; simp at h2
    | parseFailed i w out h1 h2 h3 h4 h5 => rw [hw] at h2; simp at h2
    | wrote i w out m h1 h2 h3 h4 h5 h6 => rw [hw] at h2; simp at h2
    | wrotePanicked i w out m h1 h2 h3 h4 h5 h6 => rw [hw] at h2; simp at h2
    | passed i w out h1 h2 h3 h4 h5 => rw [hw] at h2; simp at h2
    | passedPanicked i w out h1 h2 h3 h4 h5 => rw [hw] at h2; simp at h2


/-! ### The error of `WriteFile` -/

theorem step_forget (env : Env) (k : Kubectl) (ns : String) (s : State) (t : Tid) :
    (step env k ns s.forgetWriteErrors t).map State.forgetWriteErrors =
      (step env k ns s t).map State.forgetWriteErrors := by
  obtain ⟨pc, cwd, wg, workers, writes, exit, reported⟩ := s
  cases exit with
  | some f => simp [step, State.forgetWriteErrors]
  | none =>
    cases t with
    | main =>
      simp only [step, State.forgetWriteErrors, Option.isSome_none, Bool.false_eq_true,
        if_false, stepMain]
      split <;> (try split) <;> simp [State.forgetWriteErrors, Function.comp_def]
    | worker i =>
      simp only [step, State.forgetWriteErrors, Option.isSome_none, Bool.false_eq_true,
        if_false]
      cases hw : workers.get? i with
      | none => simp
      | some w =>
        simp only [stepWorker, createSecretYAML, workerReturn]
        split
        · split <;> simp [State.forgetWriteErrors, Function.comp_def]
        · split
          · split
            · rename_i hm
              split at hm <;> simp at hm
              subst hm
              simp [State.forgetWriteErrors, Function.comp_def]
            · rename_i hm
              split at hm <;> simp at hm
              subst hm
              split <;> simp [State.forgetWriteErrors, Function.comp_def]
          · split <;> simp [State.forgetWriteErrors, Function.comp_def]
        · simp

/-- Two file systems that differ in the answers of `WriteFile` alone move the process alike,
the recorded answers apart. -/
theorem step_writeFile (env : Env) (writeFile2 : String → String → Node → Option Err)
    (k : Kubectl) (ns : String) (s : State) (t : Tid) :
    (step { env with writeFile := writeFile2 } k ns s t).map State.forgetWriteErrors =
      (step env k ns s t).map State.forgetWriteErrors := by
  obtain ⟨pc, cwd, wg, workers, writes, exit, reported⟩ := s
  cases exit with
  | some f => simp [step]
  | none =>
    cases t with
    | main =>
      simp only [step, Option.isSome_none, Bool.false_eq_true, if_false, stepMain,
        switchToNamespace, readObjects, Copy_dir, homePath]
    | worker i =>
      simp only [step, Option.isSome_none, Bool.false_eq_true, if_false]
      cases hw : workers.get? i with
      | none => simp
      | some w =>
        obtain ⟨name, wpc⟩ := w
        cases wpc with
        | launched => simp only [stepWorker]
        | returned => simp only [stepWorker]
        | fetched out =>
          simp only [stepWorker, createSecretYAML, workerReturn]
          by_cases hsec : Contains name "secret" = true
          · simp only [hsec, if_true]
            cases hm : Unmarshal env.yaml out with
            | none => simp only []
            | some m =>
              by_cases hwg : wg = 0
              · simp [hwg, State.forgetWriteErrors]
              · simp [hwg, State.forgetWriteErrors]
          · simp only [hsec, Bool.false_eq_true, if_false]

/-- The error that `ioutil.WriteFile` returns changes nothing but its own record: under any
other answers of `WriteFile` every schedule leads to the same state, the recorded answers
apart. -/
theorem run_writeFile (env : Env) (writeFile2 : String → String → Node → Option Err)
    (k : Kubectl) (ns : String) (sched : List Tid) :
    (run { env with writeFile := writeFile2 } k ns sched).forgetWriteErrors =
      (run env k ns sched).forgetWriteErrors := by
  have next_forget : ∀ (e : Env) (s : State) (t : Tid),
      (next e k ns s t).forgetWriteErrors =
        ((step e k ns s t).map State.forgetWriteErrors).getD s.forgetWriteErrors := by
    intro e s t
    unfold next
    cases step e k ns s t <;> rfl
  have gen : ∀ (l : List Tid) (s1 s2 : State),
      s1.forgetWriteErrors = s2.forgetWriteErrors →
      (l.foldl (next { env with writeFile := writeFile2 } k ns) s1).forgetWriteErrors =
        (l.foldl (next env k ns) s2).forgetWriteErrors := by
    intro l
    induction l with
    | nil => intro s1 s2 h; exact h
    | cons t l ih =>
      intro s1 s2 h
      simp only [List.foldl_cons]
      apply ih
      rw [next_forget, next_forget, step_writeFile, ← step_forget env k ns s1,
        ← step_forget env k ns s2, h]
  exact gen sched _ _ rfl


/-! ## The claims about the harvest -/

/-- C2: for the list `objects` that `readObjects` returns, `createManifests` launches its
workers in listing order, one for each name the loop does not pass over, with that very name:
while the loop runs, the names launched so far followed by the survivors still to visit are
the survivors of `objects`; once the loop is left, the names launched are exactly the
survivors of `objects`, so the number of workers is the number of names not excluded and no
excluded name has a worker. -/
theorem C2_one_worker_per_survivor (env : Env) (k : Kubectl) (ns : String)
    (objects : List String) (err : Option Err) (sched : List Tid)
    (hlist : readObjects env k.name = Except.ok (objects, err)) :
    (∀ rest, (run env k ns sched).pc.pending = some rest →
      (run env k ns sched).launched ++ survivors rest = survivors objects) ∧
    ((run env k ns sched).pc.pastLoop = true →
      (run env k ns sched).launched = objects.filter (fun o => !createManifests_skips o) ∧
      (run env k ns sched).workers.length =
        objects.countP (fun o => !createManifests_skips o) ∧
      ∀ o, o ∈ (run env k ns sched).launched ↔
        (o ∈ objects ∧ createManifests_skips o = false)) := by
  have inv := run_launched env k ns sched
  have h1 : ∀ rest, (run env k ns sched).pc.pending = some rest →
      (run env k ns sched).launched ++ survivors rest = survivors objects := by
    intro rest hrest
    rw [hrest] at inv
    obtain ⟨all, hall, hl⟩ := inv
    rw [hlist] at hall
    simp only [Except.ok.injEq, Prod.mk.injEq] at hall
    rw [hall.1]
    exact hl
  refine ⟨h1, ?_⟩
  intro hpast
  have hp : (run env k ns sched).pc.pending = some [] := by
    cases hpc : (run env k ns sched).pc <;> simp [hpc, Pc.pastLoop] at hpast <;> rfl
  have hl := h1 [] hp
  simp only [survivors, List.filter_nil, List.append_nil] at hl
  refine ⟨hl, ?_, ?_⟩
  · have : (run env k ns sched).workers.length = (run env k ns sched).launched.length := by
      simp [State.launched]
    rw [this, hl, List.countP_eq_length_filter]
  · intro o
    rw [hl]
    simp [List.mem_filter]

/-- C2 at the listing of the scenario: one worker, for `secret/db-creds`. -/
theorem C2_one_worker_per_survivor_witness :
    readObjects scenarioEnv (Kubectl.secret "secrets").name =
      Except.ok (["secret/default-token-abc", "secret/db-creds", "secret/registry-pull"], none) ∧
    (run scenarioEnv (Kubectl.secret "secrets") "lion" scenarioSchedule).pc.pastLoop = true ∧
    ["secret/default-token-abc", "secret/db-creds", "secret/registry-pull"].filter
      (fun o => !createManifests_skips o) = ["secret/db-creds"] ∧
    (run scenarioEnv (Kubectl.secret "secrets") "lion" scenarioSchedule).launched =
      ["secret/db-creds"] ∧
    (run scenarioEnv (Kubectl.secret "secrets") "lion" scenarioSchedule).workers.length = 1 :=
  have h := (C2_one_worker_per_survivor scenarioEnv (Kubectl.secret "secrets") "lion"
    ["secret/default-token-abc", "secret/db-creds", "secret/registry-pull"] none
    scenarioSchedule rfl).2 (by decide)
  have hf : ["secret/default-token-abc", "secret/db-creds", "secret/registry-pull"].filter
      (fun o => !createManifests_skips o) = ["secret/db-creds"] := by decide
  ⟨rfl, by decide, hf, h.1.trans hf, h.2.1.trans (by decide)⟩

/-- C3: when the output of the listing is empty or white space only, `readObjects` ends the
process with the fatal "no object" error instead of returning a list; the control thread
then never enters the loop, no worker is launched, `WriteFile` is never called and nothing
is reported. For every other output `readObjects` returns the pieces of the trimmed output
between its newlines: a list that is not empty, whose pieces hold no newline and give the
trimmed output back when joined by newlines. -/
theorem C3_empty_listing_is_fatal (env : Env) (k : Kubectl) :
    ((∀ c ∈ (env.getNames k.name).1.data, isSpace c = true) →
      readObjects env k.name = Except.error (Fatal.noObjects k.name) ∧
      (∀ (ns : String) (s : State), s.exit = none → s.pc = Pc.readObjects →
        step env k ns s Tid.main = some { s with exit := some (Fatal.noObjects k.name) }) ∧
      ∀ (ns : String) (sched : List Tid),
        (run env k ns sched).pc.pending = none ∧ (run env k ns sched).workers = [] ∧
        (run env k ns sched).writes = [] ∧ (run env k ns sched).reported = none) ∧
    (¬ (∀ c ∈ (env.getNames k.name).1.data, isSpace c = true) →
      readObjects env k.name =
        Except.ok (Split (TrimSpace (env.getNames k.name).1) '\n', (env.getNames k.name).2) ∧
      Split (TrimSpace (env.getNames k.name).1) '\n' ≠ [] ∧
      (∀ t ∈ Split (TrimSpace (env.getNames k.name).1) '\n', '\n' ∉ t.data) ∧
      ['\n'].intercalate ((Split (TrimSpace (env.getNames k.name).1) '\n').map String.data) =
        (TrimSpace (env.getNames k.name).1).data) := by
  constructor
  · intro hws
    have htrim : TrimSpace (env.getNames k.name).1 = "" := (TrimSpace_eq_empty_iff _).2 hws
    have hro : readObjects env k.name = Except.error (Fatal.noObjects k.name) := by
      simp [readObjects, htrim]
    refine ⟨hro, ?_, ?_⟩
    · intro ns s hexit hpc
      simp [step, stepMain, hexit, hpc, hro]
    · intro ns sched
      exact run_no_listing env k ns _ hro sched
  · intro hws
    have htrim : TrimSpace (env.getNames k.name).1 ≠ "" :=
      fun h => hws ((TrimSpace_eq_empty_iff _).1 h)
    refine ⟨by simp [readObjects, htrim], ?_, ?_, ?_⟩
    · simp [Split, splitChars_ne_nil]
    · intro t ht
      simp only [Split, List.mem_map] at ht
      obtain ⟨l, hl, rfl⟩ := ht
      exact splitChars_no_sep '\n' _ l hl
    · have : (Split (TrimSpace (env.getNames k.name).1) '\n').map String.data =
          splitChars '\n' (TrimSpace (env.getNames k.name).1).data := by
        simp [Split, Function.comp_def]
      rw [this, splitChars_intercalate]

/-- C3 at a listing of white space and at the listing of the scenario. -/
theorem C3_empty_listing_is_fatal_witness :
    (∀ c ∈ (emptyListingEnv.getNames (Kubectl.secret "secrets").name).1.data, isSpace c = true) ∧
    readObjects emptyListingEnv "secrets" = Except.error (Fatal.noObjects "secrets") ∧
    (run emptyListingEnv (Kubectl.secret "secrets") "lion" scenarioSchedule).exit =
      some (Fatal.noObjects "secrets") ∧
    (run emptyListingEnv (Kubectl.secret "secrets") "lion" scenarioSchedule).workers = [] ∧
    (run emptyListingEnv (Kubectl.secret "secrets") "lion" scenarioSchedule).writes = [] ∧
    readObjects scenarioEnv "secrets" =
      Except.ok (["secret/default-token-abc", "secret/db-creds", "secret/registry-pull"], none) :=
  have hws : ∀ c ∈ (emptyListingEnv.getNames (Kubectl.secret "secrets").name).1.data,
      isSpace c = true := by decide
  have h := (C3_empty_listing_is_fatal emptyListingEnv (Kubectl.secret "secrets")).1 hws
  have h2 := (h.2.2 "lion" scenarioSchedule).2
  ⟨hws, h.1, rfl, h2.1, h2.2.1, rfl⟩

/-- C10: in every execution the wait counter is the number of workers launched and not yet
returned (one is added before each launch, one is taken off by the deferred `Done` of each
worker that returns, `Done` never meets a counter of zero, and a worker that has returned
makes no further move); so when `createManifests` has returned, when `Copy` ends with its
error, and when `Copy` has reported the directory, every worker that was launched has
returned, and a worker has been launched for every survivor of the listing. A worker that
ended the process instead has not returned, and then none of the three is ever reached. -/
theorem C10_completion_barrier (env : Env) (k : Kubectl) (ns : String) (sched : List Tid) :
    (run env k ns sched).wg = (run env k ns sched).workers.countP Worker.running ∧
    (run env k ns sched).exit ≠ some Fatal.negativeCounter ∧
    (∀ (i : Nat) (w : Worker), (run env k ns sched).workers.get? i = some w →
      w.pc = WorkerPc.returned → step env k ns (run env k ns sched) (Tid.worker i) = none) ∧
    (((∃ err, (run env k ns sched).pc = Pc.returned err) ∨
        (run env k ns sched).pc = Pc.done ∨
        (∃ err, (run env k ns sched).exit = some (Fatal.createManifests err)) ∨
        (run env k ns sched).reported ≠ none) →
      (∀ w ∈ (run env k ns sched).workers, w.pc = WorkerPc.returned) ∧
      ∃ objects err, readObjects env k.name = Except.ok (objects, err) ∧
        (run env k ns sched).launched = survivors objects) := by
  obtain ⟨hcount, hpanic⟩ := run_counter env k ns sched
  refine ⟨hcount, hpanic, ?_, ?_⟩
  · intro i w hw hpc
    unfold step
    split
    · rfl
    · simp only [hw, stepWorker, hpc]
  intro hpast
  have hpc : (∃ err, (run env k ns sched).pc = Pc.returned err) ∨
      (run env k ns sched).pc = Pc.done := by
    rcases hpast with h | h | ⟨err, h⟩ | h
    · exact Or.inl h
    · exact Or.inr h
    · exact Or.inl ⟨some err, (run_report env k ns sched).2 err h⟩
    · have hrep := (run_report env k ns sched).1
      by_cases hd : (run env k ns sched).pc = Pc.done
      · exact Or.inr hd
      · rw [if_neg hd] at hrep
        exact absurd hrep h
  have hzero := run_barrier env k ns sched hpc
  constructor
  · intro w hw
    rw [hzero] at hcount
    have hnone : ¬ (0 < (run env k ns sched).workers.countP Worker.running) := by omega
    rw [List.countP_pos_iff] at hnone
    cases hwpc : w.pc with
    | returned => rfl
    | launched => exact absurd ⟨w, hw, by simp [Worker.running, hwpc, WorkerPc.isReturned]⟩ hnone
    | fetched out =>
      exact absurd ⟨w, hw, by simp [Worker.running, hwpc, WorkerPc.isReturned]⟩ hnone
  · have inv := run_launched env k ns sched
    have hp : (run env k ns sched).pc.pending = some [] := by
      rcases hpc with ⟨err, h⟩ | h <;> rw [h] <;> rfl
    rw [hp] at inv
    obtain ⟨all, hall, hl⟩ := inv
    exact ⟨all, _, hall, by simpa [survivors] using hl⟩


/-- C6, where the code departs from it: in the scenario the file of `secret/db-creds` is
`db-creds-secret.yaml` in the output directory `/home/neo/lion-secrets`, as claimed. On a
file system where that directory cannot be entered, `Copy` drops the error of `os.Chdir`
(kube.go, line 53): the manifest is fetched and sanitised all the same, its file is written
in the directory the process started in, `/work`, and `Copy` still reports
`/home/neo/lion-secrets` as the place of the manifests. -/
theorem C6_file_outside_output_directory :
    Factory Secret = some (Kubectl.secret "secrets") ∧
    Copy_dir scenarioEnv (Kubectl.secret "secrets") "lion" = "/home/neo/lion-secrets" ∧
    (run scenarioEnv (Kubectl.secret "secrets") "lion" scenarioSchedule).writes.map
      (fun wr => (wr.dir, wr.name)) = [("/home/neo/lion-secrets", "db-creds-secret.yaml")] ∧
    chdirFailsEnv.chdir (Copy_dir chdirFailsEnv (Kubectl.secret "secrets") "lion") ≠ none ∧
    (run chdirFailsEnv (Kubectl.secret "secrets") "lion" scenarioSchedule).writes.map
      (fun wr => (wr.dir, wr.name)) = [("/work", "db-creds-secret.yaml")] ∧
    (run chdirFailsEnv (Kubectl.secret "secrets") "lion" scenarioSchedule).reported =
      some "/home/neo/lion-secrets" ∧
    (run chdirFailsEnv (Kubectl.secret "secrets") "lion" scenarioSchedule).exit = none :=
  ⟨rfl, by decide, by decide, by decide, by decide, by decide, rfl⟩

/-- C8, the claim refuted: in the scenario with a listing call that fails after printing the
three names, a worker is launched for `secret/db-creds`, fetches and writes its file, and
only then does the process end with the error of the listing. -/
theorem C8_worker_launched_despite_listing_error :
    (listingErrorEnv.getNames "secrets").2 = some "exit status 1" ∧
    (run listingErrorEnv (Kubectl.secret "secrets") "lion" scenarioSchedule).launched =
      ["secret/db-creds"] ∧
    (run listingErrorEnv (Kubectl.secret "secrets") "lion" scenarioSchedule).writes.map
      Write.name = ["db-creds-secret.yaml"] ∧
    (run listingErrorEnv (Kubectl.secret "secrets") "lion" scenarioSchedule).exit =
      some (Fatal.createManifests "exit status 1") :=
  ⟨rfl, by decide, by decide, by decide⟩

/-- C8 as amended: when the listing call returns the error `e`, the harvest never reports
success. With an output that is empty after trimming no worker is launched (the process
ends in `readObjects`); with any other output `createManifests` still launches a worker for
every name it does not pass over, waits for them, and returns `e`, on which `Copy` ends the
process with that error. -/
theorem C8_listing_error_ends_the_harvest (env : Env) (k : Kubectl) (ns : String) (e : Err)
    (sched : List Tid) (herr : (env.getNames k.name).2 = some e) :
    (run env k ns sched).reported = none ∧
    (run env k ns sched).pc ≠ Pc.done ∧
    (∀ err, (run env k ns sched).pc = Pc.returned err → err = some e) ∧
    (∀ s : State, s.exit = none → s.pc = Pc.returned (some e) →
      step env k ns s Tid.main = some { s with exit := some (Fatal.createManifests e) }) ∧
    (TrimSpace (env.getNames k.name).1 = "" → (run env k ns sched).workers = []) ∧
    (TrimSpace (env.getNames k.name).1 ≠ "" →
      ∀ rest, (run env k ns sched).pc.pending = some rest →
        (run env k ns sched).launched ++ survivors rest =
          survivors (Split (TrimSpace (env.getNames k.name).1) '\n')) := by
  have inv := run_launched env k ns sched
  have hrep := (run_report env k ns sched).1
  have hnot : (run env k ns sched).pc ≠ Pc.done := by
    intro hd
    rw [hd] at inv
    obtain ⟨all, hall, -⟩ := inv
    have := (readObjects_ok env k.name all _ hall).2.2
    rw [herr] at this
    simp [Pc.listErr] at this
  refine ⟨by rw [hrep, if_neg hnot], hnot, ?_, ?_, ?_, ?_⟩
  · intro err hpc
    rw [hpc] at inv
    obtain ⟨all, hall, -⟩ := inv
    have := (readObjects_ok env k.name all _ hall).2.2
    rw [herr] at this
    exact this
  · intro s hexit hpc
    simp [step, stepMain, hexit, hpc]
  · intro htrim
    have hro : readObjects env k.name = Except.error (Fatal.noObjects k.name) := by
      simp [readObjects, htrim]
    exact (run_no_listing env k ns _ hro sched).2.1
  · intro htrim rest hrest
    rw [hrest] at inv
    obtain ⟨all, hall, hl⟩ := inv
    rw [← (readObjects_ok env k.name all _ hall).2.1]
    exact hl

/-- C8 as amended, at the scenario with the failing listing call. -/
theorem C8_listing_error_ends_the_harvest_witness :
    (listingErrorEnv.getNames (Kubectl.secret "secrets").name).2 = some "exit status 1" ∧
    (run listingErrorEnv (Kubectl.secret "secrets") "lion" scenarioSchedule).reported = none ∧
    (run listingErrorEnv (Kubectl.secret "secrets") "lion" scenarioSchedule).pc ≠ Pc.done ∧
    (run listingErrorEnv (Kubectl.secret "secrets") "lion" scenarioSchedule).pc =
      Pc.returned (some "exit status 1") :=
  have h := C8_listing_error_ends_the_harvest listingErrorEnv (Kubectl.secret "secrets") "lion"
    "exit status 1" scenarioSchedule rfl
  ⟨rfl, h.1, h.2.1, by decide⟩

/-- C9, where the code departs from it: in the scenario on a file system that refuses every
write, the call of `ioutil.WriteFile` returns an error, which `createSecretYAML` drops
(kube.go, line 246, next to the two errors it ends the process on); the worker returns
normally, and `Copy` completes without a fatal error and reports the output directory, in
which no file was written. -/
theorem C9_failed_write_is_not_fatal :
    (run failingWriteEnv (Kubectl.secret "secrets") "lion" scenarioSchedule).writes.map
      (fun wr => (wr.name, wr.err)) =
        [("db-creds-secret.yaml", some "open db-creds-secret.yaml: permission denied")] ∧
    (run failingWriteEnv (Kubectl.secret "secrets") "lion" scenarioSchedule).workers.map
      (fun w => (w.name, w.pc.isReturned)) = [("secret/db-creds", true)] ∧
    (run failingWriteEnv (Kubectl.secret "secrets") "lion" scenarioSchedule).exit = none ∧
    (run failingWriteEnv (Kubectl.secret "secrets") "lion" scenarioSchedule).pc = Pc.done ∧
    (run failingWriteEnv (Kubectl.secret "secrets") "lion" scenarioSchedule).reported =
      some "/home/neo/lion-secrets" :=
  ⟨by decide, by decide, rfl, by decide, by decide⟩

end Neo
